import Mathlib

/-!
Shallow embedding of `src/svg.ts` (chessground's SVG annotation-shape
reconciliation engine) and proofs about its hashing and syncing algorithms.

Modelling conventions, used throughout:
* JS strings are Lean `String`s; `Array.prototype.join` is `jsJoin`.
* JS `number` values that feed the hash strings are integral in every call
  site of interest and are modelled as `Nat`; their decimal rendering
  (`'' + n`, `n.toString()`) is `natStr`.
* JS truthiness filtering (`.filter(x => x)`) over arrays of strings,
  booleans and `undefined` is modelled by rendering each array slot to the
  string it would contribute (`false`/`undefined`/`''` all render to `""`,
  `true` renders to `"true"`) and filtering out `""`.
* `undefined`-able fields are `Option`s; DOM element identity is an
  allocation counter (`nid`) threaded through node creation.
-/

namespace ChessgroundSvg

/-- JS `Array.prototype.join(sep)`: empty array gives `""`, otherwise the
elements separated by `sep`. -/
def jsJoin (sep : String) : List String → String
  | [] => ""
  | [x] => x
  | x :: y :: xs => x ++ sep ++ jsJoin sep (y :: xs)

/-- Little-endian decimal digits of `n`; the first argument is fuel
(`fuel ≥ n` suffices, we always pass `n` itself), making the `n / 10`
recursion structural. -/
def decDigits : Nat → Nat → List Nat
  | _, 0 => []
  | 0, _ + 1 => []
  | fuel + 1, n + 1 => ((n + 1) % 10) :: decDigits fuel ((n + 1) / 10)

/-- JS number-to-string conversion for a nonnegative integer: its decimal
digit string (`ToString(n)`, also `'' + n` and `n.toString()`). -/
def natStr (n : Nat) : String :=
  if n = 0 then "0" else String.mk (((decDigits n n).reverse).map Nat.digitChar)

/-- Value of a little-endian digit list. -/
def evalRev : List Nat → Nat
  | [] => 0
  | d :: ds => d + 10 * evalRev ds

/-- Decode a decimal digit string (inverse of `natStr`, used only to prove
`natStr` injective). -/
def decodeDec (s : String) : Nat :=
  evalRev ((s.data.map (fun c => c.toNat - 48)).reverse)

/- ---------- data model (src/types.ts, src/draw.ts) ---------- -/

/-- Model of `cg.Color`. -/
inductive Color
  | white
  | black
deriving DecidableEq, Fintype

def Color.str : Color → String
  | .white => "white"
  | .black => "black"

/-- Model of `cg.Role`. -/
inductive Role
  | king
  | queen
  | rook
  | bishop
  | knight
  | pawn
deriving DecidableEq, Fintype

def Role.str : Role → String
  | .king => "king"
  | .queen => "queen"
  | .rook => "rook"
  | .bishop => "bishop"
  | .knight => "knight"
  | .pawn => "pawn"

/-- Model of `cg.Key`: a board square, written `"a1"`..`"h8"` in the source; the
string form is recovered by `Key.str`. -/
structure Key where
  file : Fin 8
  rank : Fin 8
deriving DecidableEq

/-- The two-character square name, `String.fromCharCode(97 + file, 49 + rank)`. -/
def Key.str (k : Key) : String :=
  String.mk [Char.ofNat (97 + k.file.val), Char.ofNat (49 + k.rank.val)]

/-- Model of `DrawShapePiece` (src/draw.ts): color, role, optional scale. The scale
is a JS number: `0` is falsy and drops out of the hash. -/
structure DrawShapePiece where
  color : Color
  role : Role
  scale : Option Nat
deriving DecidableEq

/-- Model of `DrawModifiers` (src/draw.ts): optional lineWidth override. -/
structure DrawModifiers where
  lineWidth : Option Nat
deriving DecidableEq

/-- Model of `DrawShape` (src/draw.ts): one annotation. `brush` and `customSvg` are
JS strings whose empty value is falsy. -/
structure DrawShape where
  orig : Key
  dest : Option Key := none
  brush : Option String := none
  piece : Option DrawShapePiece := none
  modifiers : Option DrawModifiers := none
  customSvg : Option String := none
deriving DecidableEq

/-- Model of `DrawBrush` (src/draw.ts): named visual style. `opacity` is a JS float,
modelled as a rational; `lineWidth` is integral in practice. -/
structure DrawBrush where
  key : String
  color : String
  opacity : ℚ
  lineWidth : Nat
deriving DecidableEq

/-- Model of `type ArrowDests = Map<cg.Key, number>`, as a total function with
default `0` (the source reads it as `arrowDests.get(dest) || 0`). -/
def ArrowDests : Type := Key → Nat

/- ---------- the Hasher (svg.ts lines 139-173) ---------- -/

/-- Model of `pieceHash` (svg.ts 158-160):
`[piece.color, piece.role, piece.scale].filter(x => x).join(',')`. -/
def pieceHash (piece : DrawShapePiece) : String :=
  jsJoin ","
    (([piece.color.str, piece.role.str,
       match piece.scale with
       | some n => if n = 0 then "" else natStr n
       | none => ""]).filter (fun t => t ≠ ""))

/-- Model of `modifiersHash` (svg.ts 162-164): `'' + (m.lineWidth || '')`. -/
def modifiersHash (m : DrawModifiers) : String :=
  match m.lineWidth with
  | some n => if n = 0 then "" else natStr n
  | none => ""

/-- JS `ToInt32`: reinterpret `n mod 2^32` as a signed 32-bit value. -/
def toInt32 (n : Nat) : Int :=
  if n % 2 ^ 32 < 2 ^ 31 then ((n % 2 ^ 32 : Nat) : Int)
  else ((n % 2 ^ 32 : Nat) : Int) - 2 ^ 32

/-- One iteration of the loop in `customSvgHash` (svg.ts 170):
`h = ((h << 5) - h + s.charCodeAt(i)) >>> 0`.  `h << 5` is the signed
32-bit shift `ToInt32(h * 32)`, the subtraction and addition are exact in
doubles, and `>>> 0` is `ToUint32`, i.e. the nonnegative residue mod 2^32.
Characters are modelled by their code points (the source only ever hashes
markup text; on the basic multilingual plane `charCodeAt` agrees). -/
def hashStep (h : Nat) (c : Char) : Nat :=
  ((toInt32 (h * 32) - (h : Int) + (c.toNat : Int)) % (2 ^ 32 : Int)).toNat

/-- The numeric value computed by the loop in `customSvgHash` (svg.ts 168-171). -/
def customSvgHashVal (s : String) : Nat :=
  s.data.foldl hashStep 0

/-- Model of `customSvgHash` (svg.ts 166-173): `'custom-' + h.toString()`. -/
def customSvgHash (s : String) : String :=
  "custom-" ++ natStr (customSvgHashVal s)

/-- The eight array slots built by `shapeHash` (svg.ts 144-153), each
rendered to the string it contributes (`""` for a falsy slot, which
`.filter(x => x)` removes). -/
def shapeTokens (s : DrawShape) (arrowDests : ArrowDests) (current : Bool) :
    List String :=
  [if current then "true" else "",
   s.orig.str,
   match s.dest with
   | some d => d.str
   | none => "",
   match s.brush with
   | some b => b
   | none => "",
   match s.dest with
   | some d => if arrowDests d > 1 then "true" else ""
   | none => "",
   match s.piece with
   | some p => pieceHash p
   | none => "",
   match s.modifiers with
   | some m => modifiersHash m
   | none => "",
   match s.customSvg with
   | some c => if c = "" then "" else customSvgHash c
   | none => ""]

/-- Model of `shapeHash` (svg.ts 139-156): the filtered slots joined with `','`. -/
def shapeHash (s : DrawShape) (arrowDests : ArrowDests) (current : Bool) :
    String :=
  jsJoin "," ((shapeTokens s arrowDests current).filter (fun t => t ≠ ""))

/- ---------- drawable state (src/state.ts, src/draw.ts) ---------- -/

/-- Model of `interface Shape` (svg.ts 10-14). -/
structure Shape where
  shape : DrawShape
  current : Bool
  hash : String
deriving DecidableEq

/-- A child element of one of the two shape containers.  The geometry
payload produced by `renderShape` (svg.ts 175-203) is a pure function of
the recorded fields together with the per-cycle state, so we record those
determining inputs; `nid` is the fresh element identity minted by
`createElement`, and `cgHash` is the tag set at svg.ts 201.  `shorten` is
the boolean `(arrowDests.get(shape.dest) || 0) > 1` the source passes to
`renderArrow` at svg.ts 197 (meaningful only for arrow shapes). -/
structure DomNode where
  nid : Nat
  cgHash : String
  shape : DrawShape
  current : Bool
  shorten : Bool
deriving DecidableEq

/-- The part of `state.drawable` read by `renderSvg`, plus the mutable
snapshot `prevSvgHash`.  `current` is the in-progress shape when it has a
`mouseSq`, i.e. exactly the preview shape `cur` of svg.ts 24-25. -/
structure Drawable where
  shapes : List DrawShape
  autoShapes : List DrawShape
  current : Option DrawShape
  brushes : String → DrawBrush
  prevSvgHash : String

/-- The part of `State` read by the engine. -/
structure State where
  orientation : Color
  drawable : Drawable

/- ---------- Arrow Destination Counter (svg.ts 26-30) ---------- -/

/-- The body of the loop at svg.ts 28-30:
`if (s.dest) arrowDests.set(s.dest, (arrowDests.get(s.dest) || 0) + 1)`. -/
def arrowDestsStep (m : ArrowDests) (s : DrawShape) : ArrowDests :=
  match s.dest with
  | some dst => fun k => if k = dst then m dst + 1 else m k
  | none => m

/-- The arrow-destination counter built by the loop at svg.ts 28-30. -/
def arrowDestsOf (shapes : List DrawShape) : ArrowDests :=
  shapes.foldl arrowDestsStep (fun _ => 0)

/-- The preview shape `cur` (svg.ts 24-25). -/
def curShape (d : Drawable) : Option DrawShape := d.current

/-- The hashed shape list (svg.ts 32-44): static and auto shapes with
`current: false`, then the preview shape with `current: true`. -/
def hashedShapes (d : Drawable) : List Shape :=
  let arrowDests := arrowDestsOf (d.shapes ++ d.autoShapes ++ (curShape d).toList)
  (d.shapes ++ d.autoShapes).map (fun s => ⟨s, false, shapeHash s arrowDests false⟩)
    ++ (match curShape d with
        | some cur => [⟨cur, true, shapeHash cur arrowDests true⟩]
        | none => [])

/-- The cycle's full hash (svg.ts 46): the shape hashes joined with `';'`. -/
def fullHashOf (d : Drawable) : String :=
  jsJoin ";" ((hashedShapes d).map (fun sc => sc.hash))

/- ---------- Definitions Synchronizer (svg.ts 89-108, 271-306) ---------- -/

/-- The `<marker>` element built by `renderMarker` (svg.ts 271-288): id
`'arrowhead-' + brush.key`, arrowhead path filled with the brush color,
and the `cgKey` attribute used for dedup (fixed-geometry attributes
omitted). -/
structure Marker where
  id : String
  fill : String
  cgKey : String
deriving DecidableEq

def renderMarker (brush : DrawBrush) : Marker :=
  { id := "arrowhead-" ++ brush.key, fill := brush.color, cgKey := brush.key }

/-- JS `Math.round`: round half toward positive infinity. -/
def jsRound (q : ℚ) : Int := ⌊q + 1 / 2⌋

/-- Model of `makeCustomBrush` (svg.ts 299-306).  On the integral `lineWidth` model
`Math.round` is the identity; `modifiers.lineWidth || base.lineWidth`
falls back on a falsy (absent or zero) override.  The derived key is
`[base.key, modifiers.lineWidth].filter(x => x).join('')`. -/
def makeCustomBrush (base : DrawBrush) (modifiers : DrawModifiers) : DrawBrush :=
  { color := base.color
    opacity := (jsRound (base.opacity * 10) : ℚ) / 10
    lineWidth :=
      match modifiers.lineWidth with
      | some n => if n = 0 then base.lineWidth else n
      | none => base.lineWidth
    key := jsJoin ""
      (([base.key,
         match modifiers.lineWidth with
         | some n => if n = 0 then "" else natStr n
         | none => ""]).filter (fun t => t ≠ "")) }

/-- JS `Map.set` on an association list: update in place when the key is
already present (first-insertion order is kept), append otherwise. -/
def mapSet (m : List (String × DrawBrush)) (k : String) (v : DrawBrush) :
    List (String × DrawBrush) :=
  if m.any (fun p => p.1 = k) then m.map (fun p => if p.1 = k then (k, v) else p)
  else m ++ [(k, v)]

/-- The effective (derived) brush of a shape (svg.ts 94-95).  The source's
non-null assertion `s.shape.brush!` is modelled by defaulting the lookup
name to `""`. -/
def effectiveBrush (d : Drawable) (s : DrawShape) : DrawBrush :=
  let base := d.brushes (s.brush.getD "")
  match s.modifiers with
  | some m => makeCustomBrush base m
  | none => base

/-- The `brushes` map built by the first loop of `syncDefs` (svg.ts 90-98):
one entry per distinct derived-brush key among shapes with a `dest`. -/
def requiredBrushes (d : Drawable) (shapes : List Shape) :
    List (String × DrawBrush) :=
  shapes.foldl
    (fun m sc =>
      match sc.shape.dest with
      | some _ => mapSet m (effectiveBrush d sc.shape).key (effectiveBrush d sc.shape)
      | none => m)
    []

/-- Model of `syncDefs` (svg.ts 89-108): append a marker for every required derived
brush key not already tagged `cgKey` on an existing catalog entry; never
remove or update (source comment: "append only. Don't try to
update/remove."). -/
def syncDefs (d : Drawable) (shapes : List Shape) (defsEl : List Marker) :
    List Marker :=
  defsEl ++ ((requiredBrushes d shapes).filter
      (fun kv => ¬ defsEl.any (fun e => e.cgKey = kv.1))).map
    (fun kv => renderMarker kv.2)

/- ---------- Shape Synchronizer (svg.ts 111-137) ---------- -/

/-- Model of `renderShape` (svg.ts 175-203): builds a fresh element for the shape,
records the inputs that determine its geometry, and tags it with the
shape's hash (svg.ts 201). -/
def renderShape (state : State) (sc : Shape) (brushes : String → DrawBrush)
    (arrowDests : ArrowDests) (nid : Nat) : DomNode :=
  { nid := nid
    cgHash := sc.hash
    shape := sc.shape
    current := sc.current
    shorten :=
      match sc.shape.dest with
      | some d => decide (arrowDests d > 1)
      | none => false }

/-- Model of `syncShapes` (svg.ts 111-137) on one container whose child list is
`root`.  `hashesInDom` maps each target hash to whether some child carries
it; a child whose hash is no target hash is removed (`toRemove`), the rest
stay untouched in order; each target shape whose hash no child carried is
rendered and appended.  Returns the new child list, the next free element
id, and the number of DOM mutations (removals plus appends). -/
def syncShapes (state : State) (shapes : List Shape)
    (brushes : String → DrawBrush) (arrowDests : ArrowDests)
    (root : List DomNode) (nextId : Nat) : List DomNode × Nat × Nat :=
  let targetHashes := shapes.map (fun sc => sc.hash)
  let kept := root.filter (fun el => el.cgHash ∈ targetHashes)
  let toRemove := root.filter (fun el => el.cgHash ∉ targetHashes)
  let toAdd := shapes.filter (fun sc => ¬ root.any (fun el => el.cgHash = sc.hash))
  (kept ++ toAdd.enum.map
      (fun p => renderShape state p.2 brushes arrowDests (nextId + p.1)),
    nextId + toAdd.length,
    toRemove.length + toAdd.length)

/- ---------- Orchestrator (svg.ts 22-86) ---------- -/

/-- Whether `s.customSvg` is truthy: the partition predicate of the two
`syncShapes` calls (svg.ts 74 and 81). -/
def isCustom (s : DrawShape) : Bool :=
  match s.customSvg with
  | some c => c ≠ ""
  | none => false

/-- The output world owned by the engine: defs catalog, the two shape
containers, and the allocation counter for fresh element identities. -/
structure Dom where
  defsEl : List Marker
  shapesEl : List DomNode
  customSvgsEl : List DomNode
  nextId : Nat
deriving DecidableEq

/-- Model of `renderSvg` (svg.ts 22-86).  Short-circuits when the full hash equals
the stored snapshot (svg.ts 47); otherwise overwrites the snapshot
(svg.ts 48) and runs `syncDefs` and the two `syncShapes` passes.  Returns
the updated state and DOM plus the number of mutations performed (marker
appends, child removals/appends, and the snapshot overwrite). -/
def renderSvg (state : State) (dom : Dom) : State × Dom × Nat :=
  let d := state.drawable
  let fullHash := fullHashOf d
  if fullHash = d.prevSvgHash then (state, dom, 0)
  else
    let arrowDests := arrowDestsOf (d.shapes ++ d.autoShapes ++ (curShape d).toList)
    let shapes := hashedShapes d
    let state' : State := { state with drawable := { d with prevSvgHash := fullHash } }
    let defsEl' := syncDefs d shapes dom.defsEl
    let r1 := syncShapes state' (shapes.filter (fun s => ¬ isCustom s.shape))
      d.brushes arrowDests dom.shapesEl dom.nextId
    let r2 := syncShapes state' (shapes.filter (fun s => isCustom s.shape))
      d.brushes arrowDests dom.customSvgsEl r1.2.1
    (state',
      { defsEl := defsEl', shapesEl := r1.1, customSvgsEl := r2.1,
        nextId := r2.2.1 },
      (defsEl'.length - dom.defsEl.length) + r1.2.2 + r2.2.2 + 1)

/- ---------- Geometry Renderer (svg.ts 234-254, 295-326) ---------- -/

/-- Model of `cg.Pos`, as produced by `key2pos` (src/util.ts). -/
def Pos : Type := Nat × Nat

def key2pos (k : Key) : Pos := (k.file.val, k.rank.val)

/-- Model of `orient` (svg.ts 295-297). -/
def orient (pos : Pos) (color : Color) : Pos :=
  match color with
  | .white => pos
  | .black => (7 - pos.1, 7 - pos.2)

/-- Model of `pos2user` (svg.ts 324-326). -/
def pos2user (pos : Pos) : ℚ × ℚ := ((pos.1 : ℚ), 7 - (pos.2 : ℚ))

/-- Model of `lineWidth` (svg.ts 312-314): `((brush.lineWidth || 10) * (current ?
0.85 : 1)) / 64`. -/
def lineWidth (brush : DrawBrush) (current : Bool) : ℚ :=
  (if brush.lineWidth = 0 then (10 : ℚ) else (brush.lineWidth : ℚ)) *
    (if current then 17 / 20 else 1) / 64

/-- Model of `opacity` (svg.ts 316-318): `(brush.opacity || 1) * (current ? 0.9 : 1)`. -/
def opacity (brush : DrawBrush) (current : Bool) : ℚ :=
  (if brush.opacity = 0 then 1 else brush.opacity) * (if current then 9 / 10 else 1)

/-- Model of `arrowMargin` (svg.ts 320-322): `(shorten ? 20 : 10) / 64`. -/
def arrowMargin (shorten : Bool) : ℚ :=
  (if shorten then (20 : ℚ) else 10) / 64

/-- The `<line>` element built by `renderArrow` (svg.ts 243-253). -/
structure LineEl where
  stroke : String
  strokeWidth : ℚ
  markerEnd : String
  opacity : ℚ
  x1 : ℚ
  y1 : ℚ
  x2 : ℚ
  y2 : ℚ
deriving DecidableEq

/-- Model of `renderArrow` (svg.ts 234-254).  The IEEE float trigonometry on the
line angle (`Math.atan2(dy, dx)`, then `Math.cos`/`Math.sin`) is
abstracted: `cosAngle` and `sinAngle` stand for `Math.cos(angle)` and
`Math.sin(angle)`; everything else follows the source line by line. -/
def renderArrow (cosAngle sinAngle : ℚ) (brush : DrawBrush) (orig dest : Pos)
    (current shorten : Bool) : LineEl :=
  let m := arrowMargin (shorten && !current)
  let a := pos2user orig
  let b := pos2user dest
  let xo := cosAngle * m
  let yo := sinAngle * m
  { stroke := brush.color
    strokeWidth := lineWidth brush current
    markerEnd := "url(#arrowhead-" ++ brush.key ++ ")"
    opacity := opacity brush current
    x1 := a.1
    y1 := a.2
    x2 := b.1 - xo
    y2 := b.2 - yo }

/- ====================================================================
   Theorems.  First a kit of generic lemmas about strings, `jsJoin` and
   the decimal printer; then the claims.
   ==================================================================== -/

theorem str_append_cancel_left {s t u : String} (h : s ++ t = s ++ u) : t = u := by
  have h2 : s.data ++ t.data = s.data ++ u.data := by
    simpa [String.data_append] using congrArg String.data h
  exact String.ext (List.append_cancel_left h2)

theorem str_append_cancel_right {s t u : String} (h : s ++ u = t ++ u) : s = t := by
  have h2 : s.data ++ u.data = t.data ++ u.data := by
    simpa [String.data_append] using congrArg String.data h
  exact String.ext (List.append_cancel_right h2)

theorem str_eq_empty_of_length {s : String} (h : s.length = 0) : s = "" := by
  apply String.ext
  have : s.data.length = 0 := h
  simpa using List.length_eq_zero.mp this

theorem str_length_pos {s : String} (h : s ≠ "") : 0 < s.length := by
  rcases Nat.eq_zero_or_pos s.length with h0 | h0
  · exact absurd (str_eq_empty_of_length h0) h
  · exact h0

theorem jsJoin_cons (sep x : String) (l : List String) :
    jsJoin sep (x :: l) = if l = [] then x else x ++ sep ++ jsJoin sep l := by
  cases l <;> simp [jsJoin]

theorem jsJoin_length (sep : String) :
    ∀ l : List String,
      (jsJoin sep l).length =
        (l.map String.length).sum + sep.length * (l.length - 1) := by
  intro l
  induction l with
  | nil => simp [jsJoin]
  | cons x xs ih =>
    cases xs with
    | nil => simp [jsJoin]
    | cons y ys =>
      simp only [jsJoin, String.length_append, ih, List.map_cons,
        List.sum_cons, List.length_cons, Nat.add_sub_cancel]
      ring

/-- Replacing one element of a joined list by a different string, keeping
the rest, changes the join. -/
theorem jsJoin_replace_ne {a b : String} (hab : a ≠ b) :
    ∀ (xs ys : List String),
      jsJoin "," (xs ++ a :: ys) ≠ jsJoin "," (xs ++ b :: ys) := by
  intro xs
  induction xs with
  | nil =>
    intro ys h
    cases ys with
    | nil => exact hab h
    | cons y ys =>
      simp only [List.nil_append, jsJoin] at h
      exact hab (str_append_cancel_right (str_append_cancel_right h))
  | cons x xs ih =>
    intro ys h
    have h1 : (xs ++ a :: ys : List String) ≠ [] := by simp
    have h2 : (xs ++ b :: ys : List String) ≠ [] := by simp
    rw [List.cons_append, List.cons_append, jsJoin_cons, jsJoin_cons,
      if_neg h1, if_neg h2] at h
    exact ih ys (str_append_cancel_left h)

theorem jsJoin_cons_data (x : String) (l : List String) :
    ∃ r, (jsJoin "," (x :: l)).data = x.data ++ r := by
  cases l with
  | nil => exact ⟨[], by simp [jsJoin]⟩
  | cons y ys =>
    refine ⟨(",".data ++ (jsJoin "," (y :: ys)).data), ?_⟩
    simp [jsJoin, String.data_append]

/-- Replacing one element of a joined list by a different string of the
same length changes the join, whatever follows it on either side. -/
theorem jsJoin_replace_len_ne {a b : String} (hab : a ≠ b)
    (hlen : a.length = b.length) :
    ∀ (xs ys zs : List String),
      jsJoin "," (xs ++ a :: ys) ≠ jsJoin "," (xs ++ b :: zs) := by
  intro xs
  induction xs with
  | nil =>
    intro ys zs h
    obtain ⟨r, hr⟩ := jsJoin_cons_data a ys
    obtain ⟨r', hr'⟩ := jsJoin_cons_data b zs
    simp only [List.nil_append] at h
    have hd : a.data ++ r = b.data ++ r' := by rw [← hr, ← hr', h]
    have hlen' : a.data.length = b.data.length := hlen
    have ht : (a.data ++ r).take a.data.length = (b.data ++ r').take b.data.length := by
      rw [hd, hlen']
    rw [List.take_left, List.take_left] at ht
    exact hab (String.ext ht)
  | cons x xs ih =>
    intro ys zs h
    have h1 : (xs ++ a :: ys : List String) ≠ [] := by simp
    have h2 : (xs ++ b :: zs : List String) ≠ [] := by simp
    rw [List.cons_append, List.cons_append, jsJoin_cons, jsJoin_cons,
      if_neg h1, if_neg h2] at h
    exact ih ys zs (str_append_cancel_left h)

/-- Dropping a nonempty element from a joined list changes the join. -/
theorem jsJoin_insert_ne {a : String} (ha : a ≠ "") :
    ∀ (xs ys : List String),
      jsJoin "," (xs ++ a :: ys) ≠ jsJoin "," (xs ++ ys) := by
  intro xs ys h
  have hal : 0 < a.length := str_length_pos ha
  have e1 := jsJoin_length "," (xs ++ a :: ys)
  have e2 := jsJoin_length "," (xs ++ ys)
  rw [h, e2] at e1
  simp only [List.map_append, List.map_cons, List.sum_append, List.sum_cons,
    List.length_append, List.length_cons,
    show (",").length = 1 from rfl, one_mul] at e1
  omega

/-- Dropping two nonempty elements from a joined list changes the join. -/
theorem jsJoin_insert2_ne {a b : String} (ha : a ≠ "") (hb : b ≠ "") :
    ∀ (xs ys zs : List String),
      jsJoin "," (xs ++ a :: (ys ++ b :: zs)) ≠ jsJoin "," (xs ++ (ys ++ zs)) := by
  intro xs ys zs h
  have hal : 0 < a.length := str_length_pos ha
  have hbl : 0 < b.length := str_length_pos hb
  have e1 := jsJoin_length "," (xs ++ a :: (ys ++ b :: zs))
  have e2 := jsJoin_length "," (xs ++ (ys ++ zs))
  rw [h, e2] at e1
  simp only [List.map_append, List.map_cons, List.sum_append, List.sum_cons,
    List.length_append, List.length_cons,
    show (",").length = 1 from rfl, one_mul] at e1
  omega

/-- A join containing a nonempty element is nonempty. -/
theorem jsJoin_ne_empty {a : String} (ha : a ≠ "") (xs ys : List String) :
    jsJoin "," (xs ++ a :: ys) ≠ "" := by
  intro h
  have e1 := jsJoin_length "," (xs ++ a :: ys)
  have hal : 0 < a.length := str_length_pos ha
  rw [h] at e1
  simp only [List.map_append, List.map_cons, List.sum_append, List.sum_cons] at e1
  have he : ("" : String).length = 0 := rfl
  omega

theorem jsJoin_append (X Y : List String) (hX : X ≠ []) (hY : Y ≠ []) :
    jsJoin "," (X ++ Y) = jsJoin "," X ++ "," ++ jsJoin "," Y := by
  induction X with
  | nil => exact absurd rfl hX
  | cons x xs ih =>
    cases xs with
    | nil =>
      cases Y with
      | nil => exact absurd rfl hY
      | cons y ys => simp [jsJoin]
    | cons x2 xs2 =>
      have hne : ((x2 :: xs2 : List String) ++ Y) ≠ [] := by simp
      calc jsJoin "," ((x :: x2 :: xs2) ++ Y)
          = x ++ "," ++ jsJoin "," ((x2 :: xs2) ++ Y) := rfl
        _ = x ++ "," ++ (jsJoin "," (x2 :: xs2) ++ "," ++ jsJoin "," Y) := by
            rw [ih (by simp)]
        _ = (x ++ "," ++ jsJoin "," (x2 :: xs2)) ++ "," ++ jsJoin "," Y := by
            simp [String.append_assoc]
        _ = jsJoin "," (x :: x2 :: xs2) ++ "," ++ jsJoin "," Y := rfl

/-- Removing a common prefix segment from two equal joins leaves equal
joins of the suffixes. -/
theorem jsJoin_peel (P : List String) {X Y : List String}
    (h : jsJoin "," (P ++ X) = jsJoin "," (P ++ Y)) :
    jsJoin "," X = jsJoin "," Y := by
  by_cases hP : P = []
  · subst hP; simpa using h
  · by_cases hXe : X = []
    · by_cases hYe : Y = []
      · subst hXe; subst hYe; rfl
      · subst hXe
        exfalso
        rw [List.append_nil, jsJoin_append P Y hP hYe] at h
        have hlen := congrArg String.length h
        simp only [String.length_append, show (",").length = 1 from rfl] at hlen
        omega
    · by_cases hYe : Y = []
      · subst hYe
        exfalso
        rw [List.append_nil, jsJoin_append P X hP hXe] at h
        have hlen := congrArg String.length h
        simp only [String.length_append, show (",").length = 1 from rfl] at hlen
        omega
      · rw [jsJoin_append P X hP hXe, jsJoin_append P Y hP hYe] at h
        exact str_append_cancel_left h

/- ---------- the decimal printer is injective ---------- -/

theorem decDigits_lt : ∀ (fuel n : Nat), ∀ d ∈ decDigits fuel n, d < 10 := by
  intro fuel
  induction fuel with
  | zero => intro n d hd; cases n <;> simp [decDigits] at hd
  | succ f ih =>
    intro n d hd
    cases n with
    | zero => simp [decDigits] at hd
    | succ m =>
      simp only [decDigits, List.mem_cons] at hd
      rcases hd with h | h
      · omega
      · exact ih _ d h

theorem evalRev_decDigits : ∀ (n fuel : Nat), n ≤ fuel →
    evalRev (decDigits fuel n) = n := by
  intro n
  induction n using Nat.strong_induction_on with
  | _ n ih =>
    intro fuel hle
    cases n with
    | zero => cases fuel <;> simp [decDigits, evalRev]
    | succ m =>
      cases fuel with
      | zero => omega
      | succ f =>
        have hlt : (m + 1) / 10 < m + 1 := Nat.div_lt_self (Nat.succ_pos m) (by omega)
        have hle' : (m + 1) / 10 ≤ f := by omega
        simp only [decDigits, evalRev, ih _ hlt _ hle']
        omega

theorem digitChar_decode : ∀ d : Fin 10, (Nat.digitChar d.val).toNat - 48 = d.val := by
  decide

theorem decodeDec_natStr (n : Nat) : decodeDec (natStr n) = n := by
  rcases Nat.eq_zero_or_pos n with h0 | h0
  · subst h0; decide
  · have hne : n ≠ 0 := by omega
    unfold natStr
    rw [if_neg hne]
    unfold decodeDec
    have hdata : (String.mk (((decDigits n n).reverse).map Nat.digitChar)).data =
        ((decDigits n n).reverse).map Nat.digitChar := rfl
    rw [hdata, List.map_map]
    have hmap : ((decDigits n n).reverse).map ((fun c => c.toNat - 48) ∘ Nat.digitChar) =
        (decDigits n n).reverse := by
      rw [List.map_congr_left, List.map_id]
      intro d hd
      have hd10 : d < 10 := decDigits_lt n n d (List.mem_reverse.mp hd)
      exact digitChar_decode ⟨d, hd10⟩
    rw [hmap, List.reverse_reverse]
    exact evalRev_decDigits n n le_rfl

theorem natStr_inj {n m : Nat} (h : natStr n = natStr m) : n = m := by
  rw [← decodeDec_natStr n, ← decodeDec_natStr m, h]

theorem natStr_ne_empty (n : Nat) : natStr n ≠ "" := by
  unfold natStr
  by_cases h0 : n = 0
  · rw [if_pos h0]; decide
  · rw [if_neg h0]
    intro h
    have hd := congrArg String.data h
    cases n with
    | zero => exact h0 rfl
    | succ m =>
      simp only [decDigits] at hd
      simp at hd

/- ---------- square-name, color and role token facts ---------- -/

theorem fileChar_inj : ∀ a b : Fin 8,
    Char.ofNat (97 + a.val) = Char.ofNat (97 + b.val) → a = b := by decide

theorem rankChar_inj : ∀ a b : Fin 8,
    Char.ofNat (49 + a.val) = Char.ofNat (49 + b.val) → a = b := by decide

theorem Key_str_inj : ∀ {k₁ k₂ : Key}, k₁.str = k₂.str → k₁ = k₂ := by
  rintro ⟨f₁, r₁⟩ ⟨f₂, r₂⟩ h
  have hd : ([Char.ofNat (97 + f₁.val), Char.ofNat (49 + r₁.val)] : List Char) =
      [Char.ofNat (97 + f₂.val), Char.ofNat (49 + r₂.val)] :=
    congrArg String.data h
  simp only [List.cons.injEq, and_true] at hd
  obtain ⟨h1, h2⟩ := hd
  simp only [Key.mk.injEq]
  exact ⟨fileChar_inj _ _ h1, rankChar_inj _ _ h2⟩

theorem Key_str_length (k : Key) : k.str.length = 2 := rfl

theorem Key_str_ne_empty (k : Key) : k.str ≠ "" := by
  intro h
  have := congrArg String.length h
  rw [Key_str_length] at this
  simp at this

theorem Color_str_ne_empty : ∀ c : Color, c.str ≠ "" := by decide

theorem Role_str_ne_empty : ∀ r : Role, r.str ≠ "" := by decide

theorem Color_str_inj : ∀ {a b : Color}, a.str = b.str → a = b := by decide

theorem Role_str_inj : ∀ {a b : Role}, a.str = b.str → a = b := by decide

theorem Color_str_length : ∀ c : Color, c.str.length = 5 := by decide

/- ---------- the filtered token lists, in segment form ---------- -/

theorem filter_as_chunks (l : List String) :
    l.filter (fun t => t ≠ "") =
      (l.map (fun t => if t = "" then [] else [t])).flatten := by
  induction l with
  | nil => rfl
  | cons x xs ih =>
    rw [List.filter_cons, ih]
    by_cases hx : x = "" <;> simp [hx]

theorem customSvgHash_ne_empty (s : String) : customSvgHash s ≠ "" := by
  intro h
  have := congrArg String.length h
  rw [customSvgHash, String.length_append] at this
  have h7 : ("custom-").length = 7 := rfl
  have h0 : ("" : String).length = 0 := rfl
  omega

/-- Model of `pieceHash` in segment form: color and role always contribute, the
scale contributes unless falsy. -/
theorem pieceHash_eq (p : DrawShapePiece) :
    pieceHash p = jsJoin "," ([p.color.str] ++ ([p.role.str] ++
      (match p.scale with
       | some n => if n = 0 then [] else [natStr n]
       | none => []))) := by
  unfold pieceHash
  cases hsc : p.scale with
  | none =>
    simp [List.filter_cons, Color_str_ne_empty, Role_str_ne_empty]
  | some n =>
    by_cases hn : n = 0 <;>
      simp [List.filter_cons, Color_str_ne_empty, Role_str_ne_empty, hn,
        natStr_ne_empty]

theorem pieceHash_ne_empty (p : DrawShapePiece) : pieceHash p ≠ "" := by
  rw [pieceHash_eq]
  exact jsJoin_ne_empty (Color_str_ne_empty p.color) []
    ([p.role.str] ++ (match p.scale with
      | some n => if n = 0 then [] else [natStr n]
      | none => []))

/-- The filtered slot list of `shapeHash` in segment form: each slot
contributes its (nonempty) token or nothing. -/
theorem shapeTokens_filter (s : DrawShape) (m : ArrowDests) (cur : Bool) :
    (shapeTokens s m cur).filter (fun t => t ≠ "") =
      (if cur then ["true"] else []) ++
      ([s.orig.str] ++
      ((match s.dest with | some d => [d.str] | none => []) ++
      ((match s.brush with
        | some b => if b = "" then [] else [b]
        | none => []) ++
      ((match s.dest with
        | some d => if m d > 1 then ["true"] else []
        | none => []) ++
      ((match s.piece with | some p => [pieceHash p] | none => []) ++
      ((match s.modifiers with
        | some mo =>
          (match mo.lineWidth with
           | some n => if n = 0 then [] else [natStr n]
           | none => [])
        | none => []) ++
      (match s.customSvg with
       | some c => if c = "" then [] else [customSvgHash c]
       | none => []))))))) := by
  obtain ⟨o, dst, br, pc, mo, cs⟩ := s
  rw [filter_as_chunks]
  unfold shapeTokens
  cases cur <;> cases dst <;> cases br <;> cases pc <;> cases cs <;>
      rcases mo with - | ⟨- | n⟩ <;>
      simp [modifiersHash, Key_str_ne_empty, pieceHash_ne_empty,
        customSvgHash_ne_empty, natStr_ne_empty] <;>
      split_ifs <;>
      first
        | omega
        | rfl

/- ---------- hash discriminativity, coordinate by coordinate ---------- -/

theorem customSvgHash_inj {c c' : String}
    (h : customSvgHash c = customSvgHash c') :
    customSvgHashVal c = customSvgHashVal c' :=
  natStr_inj (str_append_cancel_left h)

theorem hash_ne_current (o : Key) (dst : Option Key) (br : Option String)
    (pc : Option DrawShapePiece) (mo : Option DrawModifiers)
    (cs : Option String) (m : ArrowDests) :
    shapeHash ⟨o, dst, br, pc, mo, cs⟩ m true ≠
      shapeHash ⟨o, dst, br, pc, mo, cs⟩ m false := by
  intro h
  unfold shapeHash at h
  rw [shapeTokens_filter, shapeTokens_filter] at h
  dsimp only at h
  rw [if_pos rfl, if_neg (by decide)] at h
  exact jsJoin_insert_ne (by decide) [] _ h

theorem hash_ne_orig (o o' : Key) (dst : Option Key) (br : Option String)
    (pc : Option DrawShapePiece) (mo : Option DrawModifiers)
    (cs : Option String) (m : ArrowDests) (cur : Bool) (ho : o ≠ o') :
    shapeHash ⟨o, dst, br, pc, mo, cs⟩ m cur ≠
      shapeHash ⟨o', dst, br, pc, mo, cs⟩ m cur := by
  intro h
  unfold shapeHash at h
  rw [shapeTokens_filter, shapeTokens_filter] at h
  dsimp only at h
  have h1 := jsJoin_peel _ h
  exact jsJoin_replace_ne (fun hs => ho (Key_str_inj hs)) [] _ h1

theorem hash_ne_dest_change (o : Key) (d d' : Key) (br : Option String)
    (pc : Option DrawShapePiece) (mo : Option DrawModifiers)
    (cs : Option String) (m : ArrowDests) (cur : Bool) (hd : d ≠ d') :
    shapeHash ⟨o, some d, br, pc, mo, cs⟩ m cur ≠
      shapeHash ⟨o, some d', br, pc, mo, cs⟩ m cur := by
  intro h
  unfold shapeHash at h
  rw [shapeTokens_filter, shapeTokens_filter] at h
  dsimp only at h
  have h2 := jsJoin_peel _ (jsJoin_peel _ h)
  exact jsJoin_replace_len_ne (fun hs => hd (Key_str_inj hs))
    (by rw [Key_str_length, Key_str_length]) [] _ _ h2

theorem hash_ne_dest_add (o : Key) (d : Key) (br : Option String)
    (pc : Option DrawShapePiece) (mo : Option DrawModifiers)
    (cs : Option String) (m : ArrowDests) (cur : Bool) :
    shapeHash ⟨o, some d, br, pc, mo, cs⟩ m cur ≠
      shapeHash ⟨o, none, br, pc, mo, cs⟩ m cur := by
  intro h
  unfold shapeHash at h
  rw [shapeTokens_filter, shapeTokens_filter] at h
  dsimp only at h
  have h2 := jsJoin_peel _ (jsJoin_peel _ h)
  by_cases hm : m d > 1
  · rw [if_pos hm] at h2
    exact jsJoin_insert2_ne (Key_str_ne_empty d) (by decide) [] _ _ h2
  · rw [if_neg hm] at h2
    exact jsJoin_insert_ne (Key_str_ne_empty d) [] _ h2

theorem hash_ne_brush_change (o : Key) (dst : Option Key) (b b' : String)
    (pc : Option DrawShapePiece) (mo : Option DrawModifiers)
    (cs : Option String) (m : ArrowDests) (cur : Bool)
    (hb : b ≠ "") (hb' : b' ≠ "") (hbb : b ≠ b') :
    shapeHash ⟨o, dst, some b, pc, mo, cs⟩ m cur ≠
      shapeHash ⟨o, dst, some b', pc, mo, cs⟩ m cur := by
  intro h
  unfold shapeHash at h
  rw [shapeTokens_filter, shapeTokens_filter] at h
  dsimp only at h
  have h3 := jsJoin_peel _ (jsJoin_peel _ (jsJoin_peel _ h))
  rw [if_neg hb, if_neg hb'] at h3
  exact jsJoin_replace_ne hbb [] _ h3

theorem hash_ne_brush_add (o : Key) (dst : Option Key) (b : String)
    (pc : Option DrawShapePiece) (mo : Option DrawModifiers)
    (cs : Option String) (m : ArrowDests) (cur : Bool) (hb : b ≠ "") :
    shapeHash ⟨o, dst, some b, pc, mo, cs⟩ m cur ≠
      shapeHash ⟨o, dst, none, pc, mo, cs⟩ m cur := by
  intro h
  unfold shapeHash at h
  rw [shapeTokens_filter, shapeTokens_filter] at h
  dsimp only at h
  have h3 := jsJoin_peel _ (jsJoin_peel _ (jsJoin_peel _ h))
  rw [if_neg hb] at h3
  exact jsJoin_insert_ne hb [] _ h3

theorem hash_ne_shorten (o : Key) (d : Key) (br : Option String)
    (pc : Option DrawShapePiece) (mo : Option DrawModifiers)
    (cs : Option String) (m m' : ArrowDests) (cur : Bool)
    (hm : m d > 1) (hm' : ¬ m' d > 1) :
    shapeHash ⟨o, some d, br, pc, mo, cs⟩ m cur ≠
      shapeHash ⟨o, some d, br, pc, mo, cs⟩ m' cur := by
  intro h
  unfold shapeHash at h
  rw [shapeTokens_filter, shapeTokens_filter] at h
  dsimp only at h
  have h4 := jsJoin_peel _ (jsJoin_peel _ (jsJoin_peel _ (jsJoin_peel _ h)))
  rw [if_pos hm, if_neg hm'] at h4
  exact jsJoin_insert_ne (by decide) [] _ h4

theorem pieceHash_ne_color (c c' : Color) (r : Role) (sc : Option Nat)
    (hc : c ≠ c') : pieceHash ⟨c, r, sc⟩ ≠ pieceHash ⟨c', r, sc⟩ := by
  intro h
  rw [pieceHash_eq, pieceHash_eq] at h
  dsimp only at h
  exact jsJoin_replace_ne (fun hs => hc (Color_str_inj hs)) [] _ h

theorem pieceHash_ne_role (c : Color) (r r' : Role) (sc : Option Nat)
    (hr : r ≠ r') : pieceHash ⟨c, r, sc⟩ ≠ pieceHash ⟨c, r', sc⟩ := by
  intro h
  rw [pieceHash_eq, pieceHash_eq] at h
  dsimp only at h
  have h1 := jsJoin_peel _ h
  exact jsJoin_replace_ne (fun hs => hr (Role_str_inj hs)) [] _ h1

theorem pieceHash_ne_scale_change (c : Color) (r : Role) (n n' : Nat)
    (hn : n ≠ 0) (hn' : n' ≠ 0) (hnn : n ≠ n') :
    pieceHash ⟨c, r, some n⟩ ≠ pieceHash ⟨c, r, some n'⟩ := by
  intro h
  rw [pieceHash_eq, pieceHash_eq] at h
  dsimp only at h
  have h2 := jsJoin_peel _ (jsJoin_peel _ h)
  rw [if_neg hn, if_neg hn'] at h2
  exact hnn (natStr_inj h2)

theorem pieceHash_ne_scale_add (c : Color) (r : Role) (n : Nat) (hn : n ≠ 0) :
    pieceHash ⟨c, r, some n⟩ ≠ pieceHash ⟨c, r, none⟩ := by
  intro h
  rw [pieceHash_eq, pieceHash_eq] at h
  dsimp only at h
  have h2 := jsJoin_peel _ (jsJoin_peel _ h)
  rw [if_neg hn] at h2
  exact natStr_ne_empty n h2

theorem hash_ne_piece (o : Key) (dst : Option Key) (br : Option String)
    (p p' : DrawShapePiece) (mo : Option DrawModifiers)
    (cs : Option String) (m : ArrowDests) (cur : Bool)
    (hp : pieceHash p ≠ pieceHash p') :
    shapeHash ⟨o, dst, br, some p, mo, cs⟩ m cur ≠
      shapeHash ⟨o, dst, br, some p', mo, cs⟩ m cur := by
  intro h
  unfold shapeHash at h
  rw [shapeTokens_filter, shapeTokens_filter] at h
  dsimp only at h
  have h5 := jsJoin_peel _ (jsJoin_peel _ (jsJoin_peel _ (jsJoin_peel _
    (jsJoin_peel _ h))))
  exact jsJoin_replace_ne hp [] _ h5

theorem hash_ne_piece_add (o : Key) (dst : Option Key) (br : Option String)
    (p : DrawShapePiece) (mo : Option DrawModifiers)
    (cs : Option String) (m : ArrowDests) (cur : Bool) :
    shapeHash ⟨o, dst, br, some p, mo, cs⟩ m cur ≠
      shapeHash ⟨o, dst, br, none, mo, cs⟩ m cur := by
  intro h
  unfold shapeHash at h
  rw [shapeTokens_filter, shapeTokens_filter] at h
  dsimp only at h
  have h5 := jsJoin_peel _ (jsJoin_peel _ (jsJoin_peel _ (jsJoin_peel _
    (jsJoin_peel _ h))))
  exact jsJoin_insert_ne (pieceHash_ne_empty p) [] _ h5

theorem hash_ne_mod_change (o : Key) (dst : Option Key) (br : Option String)
    (pc : Option DrawShapePiece) (n n' : Nat) (cs : Option String)
    (m : ArrowDests) (cur : Bool) (hn : n ≠ 0) (hn' : n' ≠ 0) (hnn : n ≠ n') :
    shapeHash ⟨o, dst, br, pc, some ⟨some n⟩, cs⟩ m cur ≠
      shapeHash ⟨o, dst, br, pc, some ⟨some n'⟩, cs⟩ m cur := by
  intro h
  unfold shapeHash at h
  rw [shapeTokens_filter, shapeTokens_filter] at h
  dsimp only at h
  have h6 := jsJoin_peel _ (jsJoin_peel _ (jsJoin_peel _ (jsJoin_peel _
    (jsJoin_peel _ (jsJoin_peel _ h)))))
  rw [if_neg hn, if_neg hn'] at h6
  exact jsJoin_replace_ne (fun hs => hnn (natStr_inj hs)) [] _ h6

theorem hash_ne_mod_add (o : Key) (dst : Option Key) (br : Option String)
    (pc : Option DrawShapePiece) (n : Nat) (cs : Option String)
    (m : ArrowDests) (cur : Bool) (hn : n ≠ 0) :
    shapeHash ⟨o, dst, br, pc, some ⟨some n⟩, cs⟩ m cur ≠
      shapeHash ⟨o, dst, br, pc, none, cs⟩ m cur := by
  intro h
  unfold shapeHash at h
  rw [shapeTokens_filter, shapeTokens_filter] at h
  dsimp only at h
  have h6 := jsJoin_peel _ (jsJoin_peel _ (jsJoin_peel _ (jsJoin_peel _
    (jsJoin_peel _ (jsJoin_peel _ h)))))
  rw [if_neg hn] at h6
  exact jsJoin_insert_ne (natStr_ne_empty n) [] _ h6

theorem hash_ne_custom_change (o : Key) (dst : Option Key) (br : Option String)
    (pc : Option DrawShapePiece) (mo : Option DrawModifiers) (c c' : String)
    (m : ArrowDests) (cur : Bool) (hc : c ≠ "") (hc' : c' ≠ "")
    (hv : customSvgHashVal c ≠ customSvgHashVal c') :
    shapeHash ⟨o, dst, br, pc, mo, some c⟩ m cur ≠
      shapeHash ⟨o, dst, br, pc, mo, some c'⟩ m cur := by
  intro h
  unfold shapeHash at h
  rw [shapeTokens_filter, shapeTokens_filter] at h
  dsimp only at h
  have h7 := jsJoin_peel _ (jsJoin_peel _ (jsJoin_peel _ (jsJoin_peel _
    (jsJoin_peel _ (jsJoin_peel _ (jsJoin_peel _ h))))))
  rw [if_neg hc, if_neg hc'] at h7
  exact hv (customSvgHash_inj h7)

theorem hash_ne_custom_add (o : Key) (dst : Option Key) (br : Option String)
    (pc : Option DrawShapePiece) (mo : Option DrawModifiers) (c : String)
    (m : ArrowDests) (cur : Bool) (hc : c ≠ "") :
    shapeHash ⟨o, dst, br, pc, mo, some c⟩ m cur ≠
      shapeHash ⟨o, dst, br, pc, mo, none⟩ m cur := by
  intro h
  unfold shapeHash at h
  rw [shapeTokens_filter, shapeTokens_filter] at h
  dsimp only at h
  have h7 := jsJoin_peel _ (jsJoin_peel _ (jsJoin_peel _ (jsJoin_peel _
    (jsJoin_peel _ (jsJoin_peel _ (jsJoin_peel _ h))))))
  rw [if_neg hc] at h7
  exact customSvgHash_ne_empty c h7

/- ---------- the arrow destination counter counts arrows ---------- -/

theorem arrowDestsStep_apply (m : ArrowDests) (s : DrawShape) (d : Key) :
    arrowDestsStep m s d = m d + (if s.dest = some d then 1 else 0) := by
  unfold arrowDestsStep
  cases hds : s.dest with
  | none => simp [hds]
  | some dst =>
    by_cases hd : d = dst
    · subst hd; simp
    · have hne : ¬ (some dst = some d) := by
        simpa using fun h => hd h.symm
      simp [hd, hne]

theorem arrowDestsOf_aux :
    ∀ (L : List DrawShape) (m : ArrowDests) (d : Key),
      (L.foldl arrowDestsStep m) d =
        m d + (L.filter (fun s => s.dest = some d)).length := by
  intro L
  induction L with
  | nil => simp
  | cons s L ih =>
    intro m d
    rw [List.foldl_cons, ih, arrowDestsStep_apply, List.filter_cons]
    by_cases hds : s.dest = some d <;> simp [hds] <;> omega

theorem arrowDestsOf_eq_count (L : List DrawShape) (d : Key) :
    arrowDestsOf L d = (L.filter (fun s => s.dest = some d)).length := by
  unfold arrowDestsOf
  rw [arrowDestsOf_aux]
  omega

/- ==================== claim theorems ==================== -/

/-- C7: `customSvgHash` computes the 32-bit polynomial rolling hash with
seed 0, where each character updates the state by
`new = ((old << 5) − old + code) mod 2^32` with unsigned wraparound,
equivalently `(31·old + code) mod 2^32`, and returns the value as a
decimal string prefixed with the reserved tag `custom-`; on the fixed
input `"<rect/>"` it always yields the value 775707151. -/
theorem customSvgHash_spec :
    (∀ h : Nat, h < 2 ^ 32 → ∀ c : Char,
        hashStep h c = (31 * h + c.toNat) % 2 ^ 32) ∧
    customSvgHashVal "<rect/>" = 775707151 ∧
    customSvgHash "<rect/>" = "custom-775707151" := by
  refine ⟨?_, by decide, by decide⟩
  intro h hh c
  unfold hashStep toInt32
  simp only [show (2 : Nat) ^ 32 = 4294967296 from by norm_num,
    show (2 : Nat) ^ 31 = 2147483648 from by norm_num,
    show (2 : Int) ^ 32 = 4294967296 from by norm_num]
  split_ifs with h1 <;> omega

/-- C7 witness: the step formula applied at the concrete state 0 and
character 'A'. -/
theorem customSvgHash_spec_witness :
    (0 : Nat) < 2 ^ 32 ∧ hashStep 0 'A' = (31 * 0 + 'A'.toNat) % 2 ^ 32 :=
  ⟨by norm_num, customSvgHash_spec.1 0 (by norm_num) 'A'⟩

/-- C10: a shape whose `modifiers` field is present but whose `lineWidth`
is absent or zero hashes exactly like the same shape with no `modifiers`
at all, for every destination-count map and preview flag: the modifiers
sub-hash is the empty string, a falsy token that the filter removes. -/
theorem shapeHash_falsy_modifiers (s : DrawShape) (m : ArrowDests)
    (current : Bool)
    (hmod : s.modifiers = some ⟨none⟩ ∨ s.modifiers = some ⟨some 0⟩) :
    shapeHash s m current = shapeHash { s with modifiers := none } m current := by
  obtain ⟨o, dst, br, pc, mo, cs⟩ := s
  dsimp only at hmod
  rcases hmod with h | h <;> subst h <;> rfl

/-- C10 witness. -/
theorem shapeHash_falsy_modifiers_witness :
    ((some ⟨some 0⟩ : Option DrawModifiers) = some ⟨none⟩ ∨
      (some ⟨some 0⟩ : Option DrawModifiers) = some ⟨some 0⟩) ∧
    shapeHash ⟨⟨0, 0⟩, none, none, none, some ⟨some 0⟩, none⟩ (fun _ => 0) false =
      shapeHash ⟨⟨0, 0⟩, none, none, none, none, none⟩ (fun _ => 0) false :=
  ⟨Or.inr rfl,
    shapeHash_falsy_modifiers ⟨⟨0, 0⟩, none, none, none, some ⟨some 0⟩, none⟩
      (fun _ => 0) false (Or.inr rfl)⟩

/-- C8: the destination-count loop runs over the static shapes, the auto
shapes and the preview shape; a preview shape with a destination
increments that square's count, and can make the shorten flag true for a
committed arrow on the same square even though none of the committed
arrow's own fields changed (here: committed a1→a8 alone is not shortened;
adding the preview b1→a8 flips its flag and changes its hash). -/
theorem arrowDests_includes_preview :
    (∀ (shapes autoShapes : List DrawShape) (cur : DrawShape) (d : Key),
        arrowDestsOf (shapes ++ autoShapes ++ [cur]) d =
          arrowDestsOf (shapes ++ autoShapes) d +
            (if cur.dest = some d then 1 else 0)) ∧
    (arrowDestsOf [⟨⟨0, 0⟩, some ⟨0, 7⟩, some "green", none, none, none⟩]
        ⟨0, 7⟩ = 1 ∧
      arrowDestsOf [⟨⟨0, 0⟩, some ⟨0, 7⟩, some "green", none, none, none⟩,
          ⟨⟨1, 0⟩, some ⟨0, 7⟩, some "green", none, none, none⟩] ⟨0, 7⟩ = 2 ∧
      shapeHash ⟨⟨0, 0⟩, some ⟨0, 7⟩, some "green", none, none, none⟩
          (arrowDestsOf [⟨⟨0, 0⟩, some ⟨0, 7⟩, some "green", none, none, none⟩])
          false ≠
        shapeHash ⟨⟨0, 0⟩, some ⟨0, 7⟩, some "green", none, none, none⟩
          (arrowDestsOf
            [⟨⟨0, 0⟩, some ⟨0, 7⟩, some "green", none, none, none⟩,
             ⟨⟨1, 0⟩, some ⟨0, 7⟩, some "green", none, none, none⟩])
          false) := by
  constructor
  · intro shapes autoShapes cur d
    rw [arrowDestsOf_eq_count, arrowDestsOf_eq_count, List.filter_append]
    by_cases h : cur.dest = some d <;> simp [List.filter_cons, h] <;> omega
  · refine ⟨by decide, by decide, by decide⟩

/-- C5 (amended): for a destination square `d`, write `k` for the number
of distinct origins of arrows terminating on `d` (static shapes, auto
shapes and the preview shape all counted).  When those arrows have
pairwise distinct origins, the shorten flag the source computes — the slot
`dest && (arrowDests.get(dest) || 0) > 1` fed to hashing, and the argument
`(arrowDests.get(shape.dest) || 0) > 1` fed to `renderArrow` — is true for
all of them iff `k ≥ 2` and false iff `k ≤ 1`.  (Without the distinctness
proviso the source counts arrows with multiplicity, so duplicated shapes
can set the flag with a single distinct origin; see the counterexample.) -/
theorem shorten_flag_distinct_origins (shapes autoShapes : List DrawShape)
    (cur : Option DrawShape) (d : Key)
    (hnodup : (((shapes ++ autoShapes ++ cur.toList).filter
        (fun s => s.dest = some d)).map (fun s => s.orig)).Nodup) :
    ((arrowDestsOf (shapes ++ autoShapes ++ cur.toList) d > 1) ↔
      2 ≤ (((shapes ++ autoShapes ++ cur.toList).filter
        (fun s => s.dest = some d)).map (fun s => s.orig)).dedup.length) ∧
    (∀ s ∈ shapes ++ autoShapes ++ cur.toList, s.dest = some d →
      (∀ current : Bool,
        (shapeTokens s (arrowDestsOf (shapes ++ autoShapes ++ cur.toList))
            current).get? 4 =
          some (if 2 ≤ (((shapes ++ autoShapes ++ cur.toList).filter
              (fun s => s.dest = some d)).map (fun s => s.orig)).dedup.length
            then "true" else "")) ∧
      (∀ (st : State) (sc : Shape) (br : String → DrawBrush) (nid : Nat),
        sc.shape = s →
        (renderShape st sc br (arrowDestsOf (shapes ++ autoShapes ++ cur.toList))
            nid).shorten =
          decide (2 ≤ (((shapes ++ autoShapes ++ cur.toList).filter
            (fun s => s.dest = some d)).map (fun s => s.orig)).dedup.length))) := by
  have hded : (((shapes ++ autoShapes ++ cur.toList).filter
      (fun s => s.dest = some d)).map (fun s => s.orig)).dedup.length =
      ((shapes ++ autoShapes ++ cur.toList).filter
        (fun s => s.dest = some d)).length := by
    rw [List.Nodup.dedup hnodup, List.length_map]
  have hcount := arrowDestsOf_eq_count (shapes ++ autoShapes ++ cur.toList) d
  have hiff : (arrowDestsOf (shapes ++ autoShapes ++ cur.toList) d > 1) ↔
      2 ≤ (((shapes ++ autoShapes ++ cur.toList).filter
        (fun s => s.dest = some d)).map (fun s => s.orig)).dedup.length := by
    rw [hded, hcount]
    omega
  refine ⟨hiff, ?_⟩
  intro s hs hds
  constructor
  · intro current
    have : (shapeTokens s (arrowDestsOf (shapes ++ autoShapes ++ cur.toList))
        current).get? 4 =
        some (match s.dest with
          | some d' =>
            if arrowDestsOf (shapes ++ autoShapes ++ cur.toList) d' > 1
            then "true" else ""
          | none => "") := rfl
    rw [this, hds]
    dsimp only
    by_cases h2 : (arrowDestsOf (shapes ++ autoShapes ++ cur.toList) d > 1)
    · rw [if_pos h2, if_pos (hiff.mp h2)]
    · rw [if_neg h2, if_neg (fun hk => h2 (hiff.mpr hk))]
  · intro st sc br nid hsc
    unfold renderShape
    dsimp only
    rw [hsc, hds]
    exact decide_eq_decide.mpr hiff

/-- C5 counterexample: two identical arrows a1→a8 terminate on a8 from
k = 1 distinct origin, yet the source's shorten flag (count > 1) is true,
refuting "false when k ≤ 1" as stated. -/
theorem shorten_flag_distinct_origins_cex :
    (((([⟨⟨0, 0⟩, some ⟨0, 7⟩, some "green", none, none, none⟩,
         ⟨⟨0, 0⟩, some ⟨0, 7⟩, some "green", none, none, none⟩] :
        List DrawShape).filter (fun s => s.dest = some ⟨0, 7⟩)).map
        (fun s => s.orig)).dedup.length = 1) ∧
    arrowDestsOf ([⟨⟨0, 0⟩, some ⟨0, 7⟩, some "green", none, none, none⟩,
        ⟨⟨0, 0⟩, some ⟨0, 7⟩, some "green", none, none, none⟩] :
        List DrawShape) ⟨0, 7⟩ > 1 ∧
    (shapeTokens ⟨⟨0, 0⟩, some ⟨0, 7⟩, some "green", none, none, none⟩
        (arrowDestsOf ([⟨⟨0, 0⟩, some ⟨0, 7⟩, some "green", none, none, none⟩,
          ⟨⟨0, 0⟩, some ⟨0, 7⟩, some "green", none, none, none⟩] :
          List DrawShape))
        false).get? 4 = some "true" := by
  refine ⟨by decide, by decide, by decide⟩

/-- C5 witness: two arrows a1→a8 and b1→a8 with distinct origins; the
theorem instantiates to: the flag is true iff k = 2 ≥ 2. -/
theorem shorten_flag_distinct_origins_witness :
    (((([⟨⟨0, 0⟩, some ⟨0, 7⟩, some "green", none, none, none⟩,
        ⟨⟨1, 0⟩, some ⟨0, 7⟩, some "green", none, none, none⟩] :
        List DrawShape) ++ [] ++
        (none : Option DrawShape).toList).filter
        (fun s : DrawShape => s.dest = some (⟨0, 7⟩ : Key))).map (fun s : DrawShape => s.orig)).Nodup ∧
    ((arrowDestsOf (([⟨⟨0, 0⟩, some ⟨0, 7⟩, some "green", none, none, none⟩,
        ⟨⟨1, 0⟩, some ⟨0, 7⟩, some "green", none, none, none⟩] :
        List DrawShape) ++ [] ++
        (none : Option DrawShape).toList) ⟨0, 7⟩ > 1) ↔
      2 ≤ (((([⟨⟨0, 0⟩, some ⟨0, 7⟩, some "green", none, none, none⟩,
        ⟨⟨1, 0⟩, some ⟨0, 7⟩, some "green", none, none, none⟩] :
        List DrawShape) ++ [] ++
        (none : Option DrawShape).toList).filter
        (fun s : DrawShape => s.dest = some (⟨0, 7⟩ : Key))).map (fun s : DrawShape => s.orig)).dedup.length) :=
  ⟨by decide,
    (shorten_flag_distinct_origins
      [⟨⟨0, 0⟩, some ⟨0, 7⟩, some "green", none, none, none⟩,
       ⟨⟨1, 0⟩, some ⟨0, 7⟩, some "green", none, none, none⟩] [] none ⟨0, 7⟩
      (by decide)).1⟩

/-- C6 (amended): changing exactly one of origin, destination, brush id,
piece color, piece role, piece scale, modifier line-width, markup text,
preview flag, or shorten flag — holding all other inputs fixed — changes
the hash string produced by `shapeHash`, provided the change is visible
at the token level: brush ids nonempty, scale and line-width values
nonzero (zero and absent render to the same falsy token and are
identified), markup texts nonempty with distinct rolling-hash values.
The conjuncts, in order: preview flag, origin, destination (change and
add), brush (change and add), shorten flag, piece color, piece role,
piece scale (change and add), piece presence, line-width (change and
add), markup (change and add). -/
theorem shapeHash_discriminativity :
    (∀ (o : Key) (dst : Option Key) (br : Option String)
       (pc : Option DrawShapePiece) (mo : Option DrawModifiers)
       (cs : Option String) (m : ArrowDests),
       shapeHash ⟨o, dst, br, pc, mo, cs⟩ m true ≠
         shapeHash ⟨o, dst, br, pc, mo, cs⟩ m false) ∧
    (∀ (o o' : Key) (dst : Option Key) (br : Option String)
       (pc : Option DrawShapePiece) (mo : Option DrawModifiers)
       (cs : Option String) (m : ArrowDests) (cur : Bool), o ≠ o' →
       shapeHash ⟨o, dst, br, pc, mo, cs⟩ m cur ≠
         shapeHash ⟨o', dst, br, pc, mo, cs⟩ m cur) ∧
    (∀ (o : Key) (d d' : Key) (br : Option String)
       (pc : Option DrawShapePiece) (mo : Option DrawModifiers)
       (cs : Option String) (m : ArrowDests) (cur : Bool), d ≠ d' →
       shapeHash ⟨o, some d, br, pc, mo, cs⟩ m cur ≠
         shapeHash ⟨o, some d', br, pc, mo, cs⟩ m cur) ∧
    (∀ (o : Key) (d : Key) (br : Option String)
       (pc : Option DrawShapePiece) (mo : Option DrawModifiers)
       (cs : Option String) (m : ArrowDests) (cur : Bool),
       shapeHash ⟨o, some d, br, pc, mo, cs⟩ m cur ≠
         shapeHash ⟨o, none, br, pc, mo, cs⟩ m cur) ∧
    (∀ (o : Key) (dst : Option Key) (b b' : String)
       (pc : Option DrawShapePiece) (mo : Option DrawModifiers)
       (cs : Option String) (m : ArrowDests) (cur : Bool),
       b ≠ "" → b' ≠ "" → b ≠ b' →
       shapeHash ⟨o, dst, some b, pc, mo, cs⟩ m cur ≠
         shapeHash ⟨o, dst, some b', pc, mo, cs⟩ m cur) ∧
    (∀ (o : Key) (dst : Option Key) (b : String)
       (pc : Option DrawShapePiece) (mo : Option DrawModifiers)
       (cs : Option String) (m : ArrowDests) (cur : Bool), b ≠ "" →
       shapeHash ⟨o, dst, some b, pc, mo, cs⟩ m cur ≠
         shapeHash ⟨o, dst, none, pc, mo, cs⟩ m cur) ∧
    (∀ (o : Key) (d : Key) (br : Option String)
       (pc : Option DrawShapePiece) (mo : Option DrawModifiers)
       (cs : Option String) (m m' : ArrowDests) (cur : Bool),
       m d > 1 → ¬ m' d > 1 →
       shapeHash ⟨o, some d, br, pc, mo, cs⟩ m cur ≠
         shapeHash ⟨o, some d, br, pc, mo, cs⟩ m' cur) ∧
    (∀ (o : Key) (dst : Option Key) (br : Option String)
       (c c' : Color) (r : Role) (sc : Option Nat)
       (mo : Option DrawModifiers) (cs : Option String)
       (m : ArrowDests) (cur : Bool), c ≠ c' →
       shapeHash ⟨o, dst, br, some ⟨c, r, sc⟩, mo, cs⟩ m cur ≠
         shapeHash ⟨o, dst, br, some ⟨c', r, sc⟩, mo, cs⟩ m cur) ∧
    (∀ (o : Key) (dst : Option Key) (br : Option String)
       (c : Color) (r r' : Role) (sc : Option Nat)
       (mo : Option DrawModifiers) (cs : Option String)
       (m : ArrowDests) (cur : Bool), r ≠ r' →
       shapeHash ⟨o, dst, br, some ⟨c, r, sc⟩, mo, cs⟩ m cur ≠
         shapeHash ⟨o, dst, br, some ⟨c, r', sc⟩, mo, cs⟩ m cur) ∧
    (∀ (o : Key) (dst : Option Key) (br : Option String)
       (c : Color) (r : Role) (n n' : Nat)
       (mo : Option DrawModifiers) (cs : Option String)
       (m : ArrowDests) (cur : Bool), n ≠ 0 → n' ≠ 0 → n ≠ n' →
       shapeHash ⟨o, dst, br, some ⟨c, r, some n⟩, mo, cs⟩ m cur ≠
         shapeHash ⟨o, dst, br, some ⟨c, r, some n'⟩, mo, cs⟩ m cur) ∧
    (∀ (o : Key) (dst : Option Key) (br : Option String)
       (c : Color) (r : Role) (n : Nat)
       (mo : Option DrawModifiers) (cs : Option String)
       (m : ArrowDests) (cur : Bool), n ≠ 0 →
       shapeHash ⟨o, dst, br, some ⟨c, r, some n⟩, mo, cs⟩ m cur ≠
         shapeHash ⟨o, dst, br, some ⟨c, r, none⟩, mo, cs⟩ m cur) ∧
    (∀ (o : Key) (dst : Option Key) (br : Option String)
       (p : DrawShapePiece) (mo : Option DrawModifiers)
       (cs : Option String) (m : ArrowDests) (cur : Bool),
       shapeHash ⟨o, dst, br, some p, mo, cs⟩ m cur ≠
         shapeHash ⟨o, dst, br, none, mo, cs⟩ m cur) ∧
    (∀ (o : Key) (dst : Option Key) (br : Option String)
       (pc : Option DrawShapePiece) (n n' : Nat) (cs : Option String)
       (m : ArrowDests) (cur : Bool), n ≠ 0 → n' ≠ 0 → n ≠ n' →
       shapeHash ⟨o, dst, br, pc, some ⟨some n⟩, cs⟩ m cur ≠
         shapeHash ⟨o, dst, br, pc, some ⟨some n'⟩, cs⟩ m cur) ∧
    (∀ (o : Key) (dst : Option Key) (br : Option String)
       (pc : Option DrawShapePiece) (n : Nat) (cs : Option String)
       (m : ArrowDests) (cur : Bool), n ≠ 0 →
       shapeHash ⟨o, dst, br, pc, some ⟨some n⟩, cs⟩ m cur ≠
         shapeHash ⟨o, dst, br, pc, none, cs⟩ m cur) ∧
    (∀ (o : Key) (dst : Option Key) (br : Option String)
       (pc : Option DrawShapePiece) (mo : Option DrawModifiers)
       (c c' : String) (m : ArrowDests) (cur : Bool),
       c ≠ "" → c' ≠ "" → customSvgHashVal c ≠ customSvgHashVal c' →
       shapeHash ⟨o, dst, br, pc, mo, some c⟩ m cur ≠
         shapeHash ⟨o, dst, br, pc, mo, some c'⟩ m cur) ∧
    (∀ (o : Key) (dst : Option Key) (br : Option String)
       (pc : Option DrawShapePiece) (mo : Option DrawModifiers)
       (c : String) (m : ArrowDests) (cur : Bool), c ≠ "" →
       shapeHash ⟨o, dst, br, pc, mo, some c⟩ m cur ≠
         shapeHash ⟨o, dst, br, pc, mo, none⟩ m cur) := by
  refine ⟨hash_ne_current, hash_ne_orig, hash_ne_dest_change,
    hash_ne_dest_add, hash_ne_brush_change, hash_ne_brush_add,
    hash_ne_shorten, ?_, ?_, ?_, ?_, hash_ne_piece_add,
    hash_ne_mod_change, hash_ne_mod_add, hash_ne_custom_change,
    hash_ne_custom_add⟩
  · intro o dst br c c' r sc mo cs m cur hc
    exact hash_ne_piece o dst br _ _ mo cs m cur (pieceHash_ne_color c c' r sc hc)
  · intro o dst br c r r' sc mo cs m cur hr
    exact hash_ne_piece o dst br _ _ mo cs m cur (pieceHash_ne_role c r r' sc hr)
  · intro o dst br c r n n' mo cs m cur hn hn' hnn
    exact hash_ne_piece o dst br _ _ mo cs m cur
      (pieceHash_ne_scale_change c r n n' hn hn' hnn)
  · intro o dst br c r n mo cs m cur hn
    exact hash_ne_piece o dst br _ _ mo cs m cur
      (pieceHash_ne_scale_add c r n hn)

/-- C6 counterexample: changing the markup text from `"Aa"` to `"BB"`
(a rolling-hash collision: both hash to 2112) leaves the identity hash
unchanged, refuting the claim as stated. -/
theorem shapeHash_discriminativity_cex :
    (some "Aa" : Option String) ≠ some "BB" ∧
    shapeHash ⟨⟨0, 0⟩, none, none, none, none, some "Aa"⟩ (fun _ => 0) false =
      shapeHash ⟨⟨0, 0⟩, none, none, none, none, some "BB"⟩ (fun _ => 0) false := by
  refine ⟨by decide, by decide⟩

/-- C6 witness: the origin conjunct applied at a1 versus b2. -/
theorem shapeHash_discriminativity_witness :
    (⟨0, 0⟩ : Key) ≠ ⟨1, 1⟩ ∧
    shapeHash ⟨⟨0, 0⟩, none, none, none, none, none⟩ (fun _ => 0) false ≠
      shapeHash ⟨⟨1, 1⟩, none, none, none, none, none⟩ (fun _ => 0) false :=
  ⟨by decide,
    shapeHash_discriminativity.2.1 ⟨0, 0⟩ ⟨1, 1⟩ none none none none none
      (fun _ => 0) false (by decide)⟩

/- ---------- syncShapes: structure of the result ---------- -/

theorem syncShapes_fst (state : State) (shapes : List Shape)
    (brushes : String → DrawBrush) (m : ArrowDests) (root : List DomNode)
    (nextId : Nat) :
    (syncShapes state shapes brushes m root nextId).1 =
      root.filter (fun el => el.cgHash ∈ shapes.map (fun sc => sc.hash)) ++
        (shapes.filter
          (fun sc => ¬ root.any (fun el => el.cgHash = sc.hash))).enum.map
          (fun p => renderShape state p.2 brushes m (nextId + p.1)) := rfl

theorem map_filter_comm (f : α → β) (p : β → Bool) (l : List α) :
    (l.filter (fun a => p (f a))).map f = (l.map f).filter p := by
  induction l with
  | nil => rfl
  | cons x xs ih =>
    rw [List.filter_cons, List.map_cons, List.filter_cons]
    by_cases hx : p (f x)
    · simp only [hx, if_true, List.map_cons, ih]
    · simp only [hx, if_false]
      exact ih

theorem mapped_new_hashes (state : State) (brushes : String → DrawBrush)
    (m : ArrowDests) (nextId : Nat) (l : List Shape) :
    ((l.enum.map (fun p => renderShape state p.2 brushes m (nextId + p.1))).map
      (fun el => el.cgHash)) = l.map (fun sc => sc.hash) := by
  rw [List.map_map]
  rw [show ((fun el : DomNode => el.cgHash) ∘
      fun p : Nat × Shape => renderShape state p.2 brushes m (nextId + p.1)) =
      ((fun sc : Shape => sc.hash) ∘ Prod.snd) from rfl]
  rw [← List.map_map, List.enum_map_snd]

/-- C4: every existing child whose `cgHash` is among the target hashes
survives `syncShapes` as the very same node (the same value — no
attribute or content of it changes — remains a child); under the
allocation invariant (all existing ids below the counter), a child whose
hash is absent from the target set does not survive; and every node of
the result is either an original child or a freshly rendered one whose
hash is a target hash. -/
theorem syncShapes_frame (state : State) (shapes : List Shape)
    (brushes : String → DrawBrush) (m : ArrowDests) (root : List DomNode)
    (nextId : Nat) :
    (∀ el ∈ root, el.cgHash ∈ shapes.map (fun sc => sc.hash) →
        el ∈ (syncShapes state shapes brushes m root nextId).1) ∧
    ((∀ el ∈ root, el.nid < nextId) →
      ∀ el ∈ root, el.cgHash ∉ shapes.map (fun sc => sc.hash) →
        el ∉ (syncShapes state shapes brushes m root nextId).1) ∧
    (∀ el ∈ (syncShapes state shapes brushes m root nextId).1,
        el ∈ root ∨ el.cgHash ∈ shapes.map (fun sc => sc.hash)) := by
  refine ⟨?_, ?_, ?_⟩
  · intro el hel hhash
    rw [syncShapes_fst]
    exact List.mem_append_left _ (List.mem_filter.mpr ⟨hel, by simpa using hhash⟩)
  · intro hids el hel hhash hmem
    rw [syncShapes_fst] at hmem
    rcases List.mem_append.mp hmem with h | h
    · exact hhash (by simpa using (List.mem_filter.mp h).2)
    · obtain ⟨p, -, hp⟩ := List.mem_map.mp h
      have : el.nid = nextId + p.1 := by rw [← hp]; rfl
      have := hids el hel
      omega
  · intro el hmem
    rw [syncShapes_fst] at hmem
    rcases List.mem_append.mp hmem with h | h
    · exact Or.inl (List.mem_filter.mp h).1
    · obtain ⟨p, hpmem, hp⟩ := List.mem_map.mp h
      right
      have hhash : el.cgHash = p.2.hash := by rw [← hp]; rfl
      rw [hhash]
      refine List.mem_map.mpr ⟨p.2, ?_, rfl⟩
      have := List.enum_map_snd (shapes.filter
        (fun sc => ¬ root.any (fun el => el.cgHash = sc.hash)))
      have hp2 : p.2 ∈ shapes.filter
          (fun sc => ¬ root.any (fun el => el.cgHash = sc.hash)) := by
        rw [← this]
        exact List.mem_map.mpr ⟨p, hpmem, rfl⟩
      exact (List.mem_filter.mp hp2).1

/-- C4 witness: a container with one matched and one stale child; the
matched node survives untouched, the stale one is removed, and the
result nodes are originals or freshly rendered targets. -/
theorem syncShapes_frame_witness :
    (⟨0, "a1,a8,green", ⟨⟨0, 0⟩, some ⟨0, 7⟩, some "green", none, none, none⟩,
        false, false⟩ : DomNode) ∈
      (syncShapes ⟨Color.white, ⟨[], [], none, fun _ => ⟨"", "", 0, 0⟩, ""⟩⟩
        [⟨⟨⟨0, 0⟩, some ⟨0, 7⟩, some "green", none, none, none⟩, false,
          "a1,a8,green"⟩]
        (fun _ => ⟨"", "", 0, 0⟩) (fun _ => 0)
        [⟨0, "a1,a8,green", ⟨⟨0, 0⟩, some ⟨0, 7⟩, some "green", none, none,
          none⟩, false, false⟩,
         ⟨1, "b1,b8,red", ⟨⟨1, 0⟩, some ⟨1, 7⟩, some "red", none, none, none⟩,
          false, false⟩] 2).1 ∧
    (⟨1, "b1,b8,red", ⟨⟨1, 0⟩, some ⟨1, 7⟩, some "red", none, none, none⟩,
        false, false⟩ : DomNode) ∉
      (syncShapes ⟨Color.white, ⟨[], [], none, fun _ => ⟨"", "", 0, 0⟩, ""⟩⟩
        [⟨⟨⟨0, 0⟩, some ⟨0, 7⟩, some "green", none, none, none⟩, false,
          "a1,a8,green"⟩]
        (fun _ => ⟨"", "", 0, 0⟩) (fun _ => 0)
        [⟨0, "a1,a8,green", ⟨⟨0, 0⟩, some ⟨0, 7⟩, some "green", none, none,
          none⟩, false, false⟩,
         ⟨1, "b1,b8,red", ⟨⟨1, 0⟩, some ⟨1, 7⟩, some "red", none, none, none⟩,
          false, false⟩] 2).1 := by
  constructor
  · exact (syncShapes_frame _ _ _ _ _ _).1 _ (by decide) (by decide)
  · exact (syncShapes_frame _ _ _ _ _ _).2.1 (by decide) _ (by decide) (by decide)

/-- C1 (amended): when the target shapes for a container carry pairwise
distinct hashes and the container's children carry pairwise distinct
`cgHash` tags (both hold along any run that starts from an empty container
and never receives duplicate shapes), the child `cgHash` multiset after
`syncShapes` equals exactly the multiset of target hashes and no hash
appears on more than one child.  (As stated, without the distinctness
proviso, the claim fails: see the counterexample, where a duplicated
shape makes the multisets differ.) -/
theorem syncShapes_hash_multiset (state : State) (shapes : List Shape)
    (brushes : String → DrawBrush) (m : ArrowDests) (root : List DomNode)
    (nextId : Nat)
    (ht : (shapes.map (fun sc => sc.hash)).Nodup)
    (hr : (root.map (fun el => el.cgHash)).Nodup) :
    (((syncShapes state shapes brushes m root nextId).1.map
        (fun el => el.cgHash) : List String) : Multiset String) =
      ((shapes.map (fun sc => sc.hash) : List String) : Multiset String) ∧
    ((syncShapes state shapes brushes m root nextId).1.map
      (fun el => el.cgHash)).Nodup := by
  have hres : (syncShapes state shapes brushes m root nextId).1.map
      (fun el => el.cgHash) =
      (root.map (fun el => el.cgHash)).filter
        (fun h => h ∈ shapes.map (fun sc => sc.hash)) ++
      (shapes.map (fun sc => sc.hash)).filter
        (fun h => ¬ h ∈ root.map (fun el => el.cgHash)) := by
    rw [syncShapes_fst, List.map_append, mapped_new_hashes]
    congr 1
    · exact map_filter_comm (fun el => el.cgHash)
        (fun h => decide (h ∈ shapes.map (fun sc => sc.hash))) root
    · rw [← map_filter_comm (fun sc => sc.hash)
        (fun h => decide (¬ h ∈ root.map (fun el => el.cgHash))) shapes]
      apply congrArg
      apply List.filter_congr
      intro sc _
      simp only [decide_eq_decide]
      apply not_congr
      rw [List.any_eq_true]
      simp [List.mem_map]
  have hdisj : List.Disjoint
      ((root.map (fun el => el.cgHash)).filter
        (fun h => h ∈ shapes.map (fun sc => sc.hash)))
      ((shapes.map (fun sc => sc.hash)).filter
        (fun h => ¬ h ∈ root.map (fun el => el.cgHash))) := by
    intro a ha hb
    have h1 := (List.mem_filter.mp ha).1
    have h2 := (List.mem_filter.mp hb).2
    simp only [decide_eq_true_eq] at h2
    exact h2 h1
  have hnodup : (((root.map (fun el => el.cgHash)).filter
      (fun h => h ∈ shapes.map (fun sc => sc.hash))) ++
      ((shapes.map (fun sc => sc.hash)).filter
        (fun h => ¬ h ∈ root.map (fun el => el.cgHash)))).Nodup :=
    List.Nodup.append (hr.filter _) (ht.filter _) hdisj
  have hperm : List.Perm
      (((root.map (fun el => el.cgHash)).filter
        (fun h => h ∈ shapes.map (fun sc => sc.hash))) ++
        ((shapes.map (fun sc => sc.hash)).filter
          (fun h => ¬ h ∈ root.map (fun el => el.cgHash))))
      (shapes.map (fun sc => sc.hash)) := by
    rw [List.perm_ext_iff_of_nodup hnodup ht]
    intro a
    simp only [List.mem_append, List.mem_filter, decide_eq_true_eq,
      decide_not, Bool.not_eq_true', decide_eq_false_iff_not, not_not]
    constructor
    · rintro (⟨-, h⟩ | ⟨h, -⟩) <;> exact h
    · intro h
      by_cases hroot : a ∈ root.map (fun el => el.cgHash)
      · exact Or.inl ⟨hroot, h⟩
      · exact Or.inr ⟨h, hroot⟩
  constructor
  · rw [hres]
    exact Multiset.coe_eq_coe.mpr hperm
  · rw [hres]
    exact hnodup

/-- C1 counterexample: a duplicated target shape (two identical arrows
a1→a8, hence equal hashes) against a container already holding a node
with that hash: after `syncShapes` the container has one child with the
hash, but the target multiset has it twice, so the multisets differ. -/
theorem syncShapes_hash_multiset_cex :
    ¬ ((((syncShapes
        ⟨Color.white, ⟨[], [], none, fun _ => ⟨"", "", 0, 0⟩, ""⟩⟩
        [⟨⟨⟨0, 0⟩, some ⟨0, 7⟩, some "green", none, none, none⟩, false,
          "a1,a8,green"⟩,
         ⟨⟨⟨0, 0⟩, some ⟨0, 7⟩, some "green", none, none, none⟩, false,
          "a1,a8,green"⟩]
        (fun _ => ⟨"", "", 0, 0⟩) (fun _ => 0)
        [⟨0, "a1,a8,green", ⟨⟨0, 0⟩, some ⟨0, 7⟩, some "green", none, none,
          none⟩, false, false⟩] 1).1.map
        (fun el => el.cgHash) : List String) : Multiset String) =
      ((["a1,a8,green", "a1,a8,green"] : List String) : Multiset String)) := by
  decide

/-- C1 witness: one fresh target shape against a container holding one
stale node: the hypotheses hold and the child hash multiset afterwards is
exactly the target hash multiset, without duplicates. -/
theorem syncShapes_hash_multiset_witness :
    (([⟨⟨⟨0, 0⟩, some ⟨0, 7⟩, some "green", none, none, none⟩, false,
        "a1,a8,green"⟩] : List Shape).map (fun sc => sc.hash)).Nodup ∧
    (([⟨9, "b1,b8,red", ⟨⟨1, 0⟩, some ⟨1, 7⟩, some "red", none, none, none⟩,
        false, false⟩] : List DomNode).map (fun el => el.cgHash)).Nodup ∧
    ((((syncShapes ⟨Color.white, ⟨[], [], none, fun _ => ⟨"", "", 0, 0⟩, ""⟩⟩
        [⟨⟨⟨0, 0⟩, some ⟨0, 7⟩, some "green", none, none, none⟩, false,
          "a1,a8,green"⟩]
        (fun _ => ⟨"", "", 0, 0⟩) (fun _ => 0)
        [⟨9, "b1,b8,red", ⟨⟨1, 0⟩, some ⟨1, 7⟩, some "red", none, none,
          none⟩, false, false⟩] 10).1.map
        (fun el => el.cgHash) : List String) : Multiset String) =
      ((([⟨⟨⟨0, 0⟩, some ⟨0, 7⟩, some "green", none, none, none⟩, false,
        "a1,a8,green"⟩] : List Shape).map
        (fun sc => sc.hash) : List String) : Multiset String)) :=
  ⟨by decide, by decide,
    (syncShapes_hash_multiset
      ⟨Color.white, ⟨[], [], none, fun _ => ⟨"", "", 0, 0⟩, ""⟩⟩
      [⟨⟨⟨0, 0⟩, some ⟨0, 7⟩, some "green", none, none, none⟩, false,
        "a1,a8,green"⟩]
      (fun _ => ⟨"", "", 0, 0⟩) (fun _ => 0)
      [⟨9, "b1,b8,red", ⟨⟨1, 0⟩, some ⟨1, 7⟩, some "red", none, none, none⟩,
        false, false⟩] 10 (by decide) (by decide)).1⟩

/- ---------- syncDefs: the brushes map and the catalog ---------- -/

theorem mapSet_key_inv (m : List (String × DrawBrush)) (k : String)
    (v : DrawBrush) (hv : v.key = k)
    (hm : ∀ kv ∈ m, kv.2.key = kv.1) :
    ∀ kv ∈ mapSet m k v, kv.2.key = kv.1 := by
  unfold mapSet
  split_ifs with h
  · intro kv hkv
    obtain ⟨kv', hkv', heq⟩ := List.mem_map.mp hkv
    by_cases hk : kv'.1 = k
    · rw [← heq, if_pos hk]; exact hv
    · rw [← heq, if_neg hk]; exact hm kv' hkv'
  · intro kv hkv
    rcases List.mem_append.mp hkv with h1 | h1
    · exact hm kv h1
    · rw [List.mem_singleton.mp h1]; exact hv

theorem mapSet_keys (m : List (String × DrawBrush)) (k : String) (v : DrawBrush) :
    (mapSet m k v).map Prod.fst =
      if m.any (fun p => p.1 = k) then m.map Prod.fst
      else m.map Prod.fst ++ [k] := by
  unfold mapSet
  split_ifs with h
  · rw [List.map_map]
    apply List.map_congr_left
    intro kv _
    by_cases hk : kv.1 = k
    · simp [hk]
    · simp [hk]
  · simp

theorem requiredBrushes_key_inv (d : Drawable) (shapes : List Shape) :
    ∀ kv ∈ requiredBrushes d shapes, kv.2.key = kv.1 := by
  unfold requiredBrushes
  suffices h : ∀ (l : List Shape) (acc : List (String × DrawBrush)),
      (∀ kv ∈ acc, kv.2.key = kv.1) →
      ∀ kv ∈ l.foldl (fun m sc =>
        match sc.shape.dest with
        | some _ => mapSet m (effectiveBrush d sc.shape).key (effectiveBrush d sc.shape)
        | none => m) acc, kv.2.key = kv.1 by
    exact h shapes [] (by simp)
  intro l
  induction l with
  | nil => intro acc hacc; simpa using hacc
  | cons sc l ih =>
    intro acc hacc
    rw [List.foldl_cons]
    cases hds : sc.shape.dest with
    | none => simpa [hds] using ih acc hacc
    | some dst =>
      simp only [hds]
      exact ih _ (mapSet_key_inv acc _ _ rfl hacc)

theorem requiredBrushes_keys_nodup (d : Drawable) (shapes : List Shape) :
    ((requiredBrushes d shapes).map Prod.fst).Nodup := by
  unfold requiredBrushes
  suffices h : ∀ (l : List Shape) (acc : List (String × DrawBrush)),
      (acc.map Prod.fst).Nodup →
      ((l.foldl (fun m sc =>
        match sc.shape.dest with
        | some _ => mapSet m (effectiveBrush d sc.shape).key (effectiveBrush d sc.shape)
        | none => m) acc).map Prod.fst).Nodup by
    exact h shapes [] (by simp)
  intro l
  induction l with
  | nil => intro acc hacc; simpa using hacc
  | cons sc l ih =>
    intro acc hacc
    rw [List.foldl_cons]
    cases hds : sc.shape.dest with
    | none => simpa [hds] using ih acc hacc
    | some dst =>
      simp only [hds]
      apply ih
      rw [mapSet_keys]
      split_ifs with h
      · exact hacc
      · refine List.Nodup.append hacc (List.nodup_singleton _) ?_
        intro a ha hb
        rw [List.mem_singleton.mp hb] at ha
        obtain ⟨kv, hkv, hk⟩ := List.mem_map.mp ha
        have : acc.any (fun p => p.1 = (effectiveBrush d sc.shape).key) = true :=
          List.any_eq_true.mpr ⟨kv, hkv, by simpa using hk⟩
        simp [this] at h

theorem requiredBrushes_mem (d : Drawable) (shapes : List Shape) (k : String) :
    k ∈ (requiredBrushes d shapes).map Prod.fst ↔
      ∃ sc ∈ shapes, sc.shape.dest ≠ none ∧ (effectiveBrush d sc.shape).key = k := by
  unfold requiredBrushes
  suffices h : ∀ (l : List Shape) (acc : List (String × DrawBrush)),
      k ∈ ((l.foldl (fun m sc =>
        match sc.shape.dest with
        | some _ => mapSet m (effectiveBrush d sc.shape).key (effectiveBrush d sc.shape)
        | none => m) acc).map Prod.fst) ↔
      k ∈ acc.map Prod.fst ∨
        ∃ sc ∈ l, sc.shape.dest ≠ none ∧ (effectiveBrush d sc.shape).key = k by
    rw [h shapes []]
    simp
  intro l
  induction l with
  | nil => intro acc; simp
  | cons sc l ih =>
    intro acc
    rw [List.foldl_cons]
    cases hds : sc.shape.dest with
    | none =>
      simp only [hds]
      rw [ih acc]
      constructor
      · rintro (h | h)
        · exact Or.inl h
        · exact Or.inr (by
            obtain ⟨sc', hsc', h1, h2⟩ := h
            exact ⟨sc', List.mem_cons_of_mem _ hsc', h1, h2⟩)
      · rintro (h | ⟨sc', hsc', h1, h2⟩)
        · exact Or.inl h
        · rcases List.mem_cons.mp hsc' with heq | hmem
          · subst heq; exact absurd hds (by simpa using h1)
          · exact Or.inr ⟨sc', hmem, h1, h2⟩
    | some dst =>
      simp only [hds]
      rw [ih, mapSet_keys]
      constructor
      · rintro (h | h)
        · split_ifs at h with hany
          · exact Or.inl h
          · rcases List.mem_append.mp h with h1 | h1
            · exact Or.inl h1
            · refine Or.inr ⟨sc, List.mem_cons_self _ _, by simp [hds], ?_⟩
              exact (List.mem_singleton.mp h1).symm
        · obtain ⟨sc', hsc', h1, h2⟩ := h
          exact Or.inr ⟨sc', List.mem_cons_of_mem _ hsc', h1, h2⟩
      · rintro (h | ⟨sc', hsc', h1, h2⟩)
        · left
          split_ifs with hany
          · exact h
          · exact List.mem_append_left _ h
        · rcases List.mem_cons.mp hsc' with heq | hmem
          · subst heq
            left
            split_ifs with hany
            · obtain ⟨p, hp, hpk⟩ := List.any_eq_true.mp hany
              rw [← h2]
              exact List.mem_map.mpr ⟨p, hp, by simpa using hpk⟩
            · exact List.mem_append_right _ (List.mem_singleton.mpr h2.symm)
          · exact Or.inr ⟨sc', hmem, h1, h2⟩

theorem syncDefs_keys (d : Drawable) (shapes : List Shape) (defsEl : List Marker) :
    (syncDefs d shapes defsEl).map (fun e => e.cgKey) =
      defsEl.map (fun e => e.cgKey) ++
        ((requiredBrushes d shapes).map Prod.fst).filter
          (fun k => ¬ defsEl.any (fun e => e.cgKey = k)) := by
  unfold syncDefs
  rw [List.map_append]
  congr 1
  rw [List.map_map]
  have hc : ((fun e : Marker => e.cgKey) ∘ fun kv : String × DrawBrush =>
      renderMarker kv.2) = fun kv : String × DrawBrush => kv.2.key := rfl
  rw [hc]
  have hmap : ((requiredBrushes d shapes).filter
      (fun kv => ¬ defsEl.any (fun e => e.cgKey = kv.1))).map
        (fun kv : String × DrawBrush => kv.2.key) =
      ((requiredBrushes d shapes).filter
        (fun kv => ¬ defsEl.any (fun e => e.cgKey = kv.1))).map Prod.fst := by
    apply List.map_congr_left
    intro kv hkv
    exact requiredBrushes_key_inv d shapes kv (List.mem_filter.mp hkv).1
  rw [hmap]
  exact map_filter_comm Prod.fst
    (fun k => decide (¬ defsEl.any (fun e => e.cgKey = k))) _

theorem any_cgKey_iff (defsEl : List Marker) (k : String) :
    defsEl.any (fun e => e.cgKey = k) = true ↔
      k ∈ defsEl.map (fun e => e.cgKey) := by
  simp [List.any_eq_true, List.mem_map]

theorem syncDefs_nodup (d : Drawable) (shapes : List Shape)
    (defsEl : List Marker)
    (h : (defsEl.map (fun e => e.cgKey)).Nodup) :
    ((syncDefs d shapes defsEl).map (fun e => e.cgKey)).Nodup := by
  rw [syncDefs_keys]
  refine List.Nodup.append h ((requiredBrushes_keys_nodup d shapes).filter _) ?_
  intro a ha hb
  have h2 := (List.mem_filter.mp hb).2
  simp only [decide_eq_true_eq] at h2
  exact h2 ((any_cgKey_iff defsEl a).mpr ha)

theorem syncDefs_mem_keys (d : Drawable) (shapes : List Shape)
    (defsEl : List Marker) (k : String) :
    k ∈ (syncDefs d shapes defsEl).map (fun e => e.cgKey) ↔
      k ∈ defsEl.map (fun e => e.cgKey) ∨
        k ∈ (requiredBrushes d shapes).map Prod.fst := by
  rw [syncDefs_keys]
  rw [List.mem_append]
  constructor
  · rintro (h | h)
    · exact Or.inl h
    · exact Or.inr (List.mem_filter.mp h).1
  · rintro (h | h)
    · exact Or.inl h
    · by_cases hany : defsEl.any (fun e => e.cgKey = k) = true
      · exact Or.inl ((any_cgKey_iff defsEl k).mp hany)
      · exact Or.inr (List.mem_filter.mpr ⟨h, by simpa using hany⟩)

theorem syncDefs_foldl_extends :
    ∀ (cycles : List (Drawable × List Shape)) (defsEl : List Marker),
      ∃ t, cycles.foldl (fun acc c => syncDefs c.1 c.2 acc) defsEl =
        defsEl ++ t := by
  intro cycles
  induction cycles with
  | nil => intro defsEl; exact ⟨[], by simp⟩
  | cons c cycles ih =>
    intro defsEl
    rw [List.foldl_cons]
    obtain ⟨X, hX⟩ : ∃ X, syncDefs c.1 c.2 defsEl = defsEl ++ X := ⟨_, rfl⟩
    obtain ⟨t, ht⟩ := ih (syncDefs c.1 c.2 defsEl)
    exact ⟨X ++ t, by rw [ht, hX, List.append_assoc]⟩

theorem syncDefs_foldl_nodup :
    ∀ (cycles : List (Drawable × List Shape)) (defsEl : List Marker),
      (defsEl.map (fun e => e.cgKey)).Nodup →
      ((cycles.foldl (fun acc c => syncDefs c.1 c.2 acc) defsEl).map
        (fun e => e.cgKey)).Nodup := by
  intro cycles
  induction cycles with
  | nil => intro defsEl h; simpa using h
  | cons c cycles ih =>
    intro defsEl h
    rw [List.foldl_cons]
    exact ih _ (syncDefs_nodup c.1 c.2 defsEl h)

theorem syncDefs_foldl_mem :
    ∀ (cycles : List (Drawable × List Shape)) (defsEl : List Marker)
      (k : String),
      k ∈ (cycles.foldl (fun acc c => syncDefs c.1 c.2 acc) defsEl).map
          (fun e => e.cgKey) ↔
        k ∈ defsEl.map (fun e => e.cgKey) ∨
          ∃ c ∈ cycles, k ∈ (requiredBrushes c.1 c.2).map Prod.fst := by
  intro cycles
  induction cycles with
  | nil => intro defsEl k; simp
  | cons c cycles ih =>
    intro defsEl k
    rw [List.foldl_cons, ih, syncDefs_mem_keys]
    constructor
    · rintro ((h | h) | h)
      · exact Or.inl h
      · exact Or.inr ⟨c, List.mem_cons_self _ _, h⟩
      · obtain ⟨c', hc', hk⟩ := h
        exact Or.inr ⟨c', List.mem_cons_of_mem _ hc', hk⟩
    · rintro (h | ⟨c', hc', hk⟩)
      · exact Or.inl (Or.inl h)
      · rcases List.mem_cons.mp hc' with heq | hmem
        · subst heq; exact Or.inl (Or.inr hk)
        · exact Or.inr ⟨c', hmem, hk⟩

/-- C2: across any number of cycles the definitions catalog is
append-only and holds exactly one marker per distinct derived-brush key
referenced by an arrow shape so far.  Conjuncts: (i) a cycle keeps every
existing entry verbatim, in place; (ii) after a cycle every required
derived-brush key has an entry; (iii) a cycle never duplicates a key;
(iv) a cycle appends only markers for required keys that had no entry;
(v) the required keys are exactly the derived-brush keys of the shapes
with a destination; (vi) any number of cycles only ever appends;
(vii) keys stay duplicate-free over any number of cycles; (viii) starting
from an empty catalog, after any number of cycles the catalog's key set
is exactly the set of derived-brush keys required at some cycle so far
(one entry each, by (vii)), even for brushes that stopped appearing. -/
theorem syncDefs_append_only (d : Drawable) (shapes : List Shape)
    (defsEl : List Marker) :
    ((syncDefs d shapes defsEl).take defsEl.length = defsEl) ∧
    (∀ k ∈ (requiredBrushes d shapes).map Prod.fst,
      k ∈ (syncDefs d shapes defsEl).map (fun e => e.cgKey)) ∧
    ((defsEl.map (fun e => e.cgKey)).Nodup →
      ((syncDefs d shapes defsEl).map (fun e => e.cgKey)).Nodup) ∧
    (∀ e ∈ syncDefs d shapes defsEl, e ∉ defsEl →
      e.cgKey ∈ (requiredBrushes d shapes).map Prod.fst ∧
        e.cgKey ∉ defsEl.map (fun e => e.cgKey)) ∧
    (∀ k : String, k ∈ (requiredBrushes d shapes).map Prod.fst ↔
      ∃ sc ∈ shapes, sc.shape.dest ≠ none ∧ (effectiveBrush d sc.shape).key = k) ∧
    (∀ cycles : List (Drawable × List Shape),
      ∃ t, cycles.foldl (fun acc c => syncDefs c.1 c.2 acc) defsEl =
        defsEl ++ t) ∧
    (∀ cycles : List (Drawable × List Shape),
      (defsEl.map (fun e => e.cgKey)).Nodup →
      ((cycles.foldl (fun acc c => syncDefs c.1 c.2 acc) defsEl).map
        (fun e => e.cgKey)).Nodup) ∧
    (∀ (cycles : List (Drawable × List Shape)) (k : String),
      k ∈ (cycles.foldl (fun acc c => syncDefs c.1 c.2 acc) []).map
          (fun e => e.cgKey) ↔
        ∃ c ∈ cycles, k ∈ (requiredBrushes c.1 c.2).map Prod.fst) := by
  refine ⟨?_, ?_, syncDefs_nodup d shapes defsEl, ?_,
    requiredBrushes_mem d shapes,
    fun cycles => syncDefs_foldl_extends cycles defsEl,
    fun cycles => syncDefs_foldl_nodup cycles defsEl, ?_⟩
  · exact List.take_left _ _
  · intro k hk
    exact (syncDefs_mem_keys d shapes defsEl k).mpr (Or.inr hk)
  · intro e he hne
    unfold syncDefs at he
    rcases List.mem_append.mp he with h | h
    · exact absurd h hne
    · obtain ⟨kv, hkv, heq⟩ := List.mem_map.mp h
      have hkey : e.cgKey = kv.1 := by
        rw [← heq]
        exact requiredBrushes_key_inv d shapes kv (List.mem_filter.mp hkv).1
      constructor
      · rw [hkey]
        exact List.mem_map.mpr ⟨kv, (List.mem_filter.mp hkv).1, rfl⟩
      · rw [hkey]
        have h2 := (List.mem_filter.mp hkv).2
        simp only [decide_eq_true_eq] at h2
        intro hmem
        exact h2 ((any_cgKey_iff defsEl kv.1).mpr hmem)
  · intro cycles k
    rw [syncDefs_foldl_mem]
    simp

/-- C2 witness: one arrow shape with the green brush against an empty
catalog: the empty key list is duplicate-free, and so is the catalog's
key list after the cycle. -/
theorem syncDefs_append_only_witness :
    ((([] : List Marker).map (fun e => e.cgKey)).Nodup) ∧
    ((syncDefs ⟨[], [], none, fun _ => ⟨"green", "#15781B", 1, 10⟩, ""⟩
        [⟨⟨⟨0, 0⟩, some ⟨0, 7⟩, some "green", none, none, none⟩, false,
          "a1,a8,green"⟩] []).map (fun e => e.cgKey)).Nodup :=
  ⟨by decide,
    (syncDefs_append_only ⟨[], [], none, fun _ => ⟨"green", "#15781B", 1, 10⟩, ""⟩
      [⟨⟨⟨0, 0⟩, some ⟨0, 7⟩, some "green", none, none, none⟩, false,
        "a1,a8,green"⟩] []).2.2.1 (by decide)⟩

/-- C3: when the full hash (the per-shape hashes joined with ';') equals
the stored `prevSvgHash` snapshot, `renderSvg` returns immediately with
no mutation at all; otherwise it overwrites the snapshot with the new
full hash before reconciling; consequently a second call with unchanged
input performs zero mutations. -/
theorem renderSvg_short_circuit (state : State) (dom : Dom) :
    (fullHashOf state.drawable = state.drawable.prevSvgHash →
      renderSvg state dom = (state, dom, 0)) ∧
    (fullHashOf state.drawable ≠ state.drawable.prevSvgHash →
      (renderSvg state dom).1.drawable.prevSvgHash = fullHashOf state.drawable) ∧
    (renderSvg (renderSvg state dom).1 (renderSvg state dom).2.1 =
      ((renderSvg state dom).1, (renderSvg state dom).2.1, 0)) := by
  have key : ∀ (st : State) (dm : Dom),
      fullHashOf st.drawable = st.drawable.prevSvgHash →
      renderSvg st dm = (st, dm, 0) := by
    intro st dm h
    simp only [renderSvg]
    rw [if_pos h]
  refine ⟨key state dom, ?_, ?_⟩
  · intro h
    simp only [renderSvg]
    rw [if_neg h]
  · by_cases h : fullHashOf state.drawable = state.drawable.prevSvgHash
    · rw [key state dom h]
      exact key state dom h
    · have hr1 : (renderSvg state dom).1 =
          { state with drawable :=
            { state.drawable with prevSvgHash := fullHashOf state.drawable } } := by
        simp only [renderSvg]
        rw [if_neg h]
      exact key _ _ (by rw [hr1]; rfl)

/-- C3 witness: an empty shape set whose full hash `""` already equals the
stored snapshot: the call returns the state and DOM unchanged with zero
mutations. -/
theorem renderSvg_short_circuit_witness :
    fullHashOf (⟨Color.white,
        ⟨[], [], none, fun _ => ⟨"", "", 0, 0⟩, ""⟩⟩ : State).drawable =
      (⟨Color.white,
        ⟨[], [], none, fun _ => ⟨"", "", 0, 0⟩, ""⟩⟩ : State).drawable.prevSvgHash ∧
    renderSvg ⟨Color.white, ⟨[], [], none, fun _ => ⟨"", "", 0, 0⟩, ""⟩⟩
        ⟨[], [], [], 0⟩ =
      (⟨Color.white, ⟨[], [], none, fun _ => ⟨"", "", 0, 0⟩, ""⟩⟩, ⟨[], [], [], 0⟩, 0) :=
  ⟨by decide,
    (renderSvg_short_circuit
      ⟨Color.white, ⟨[], [], none, fun _ => ⟨"", "", 0, 0⟩, ""⟩⟩
      ⟨[], [], [], 0⟩).1 (by decide)⟩

/-- C9 (amended): the rendered line's endpoint is offset from the
destination by `cos`/`sin` of the line angle times the margin
`arrowMargin (shorten && !current)`, which is 20/64 when the shorten flag
is set on a committed arrow and 10/64 otherwise; the preview flag scales
the stroke width by 0.85 and the opacity by 0.9, but it additionally
suppresses the enlarged margin: a preview arrow uses 10/64 even when its
shorten flag is true.  Color, marker reference and the start point do not
depend on the preview flag. -/
theorem renderArrow_spec (cosA sinA : ℚ) (brush : DrawBrush) (o dst : Pos)
    (current shorten : Bool) :
    ((renderArrow cosA sinA brush o dst current shorten).x2 =
      (pos2user dst).1 - cosA *
        ((if shorten && !current then (20 : ℚ) else 10) / 64)) ∧
    ((renderArrow cosA sinA brush o dst current shorten).y2 =
      (pos2user dst).2 - sinA *
        ((if shorten && !current then (20 : ℚ) else 10) / 64)) ∧
    arrowMargin true = 20 / 64 ∧
    arrowMargin false = 10 / 64 ∧
    ((renderArrow cosA sinA brush o dst true shorten).strokeWidth =
      17 / 20 * (renderArrow cosA sinA brush o dst false shorten).strokeWidth) ∧
    ((renderArrow cosA sinA brush o dst true shorten).opacity =
      9 / 10 * (renderArrow cosA sinA brush o dst false shorten).opacity) ∧
    ((renderArrow cosA sinA brush o dst true true).x2 =
      (pos2user dst).1 - cosA * (10 / 64)) ∧
    ((renderArrow cosA sinA brush o dst current shorten).stroke = brush.color) ∧
    ((renderArrow cosA sinA brush o dst current shorten).markerEnd =
      "url(#arrowhead-" ++ brush.key ++ ")") ∧
    ((renderArrow cosA sinA brush o dst current shorten).x1 = (pos2user o).1) ∧
    ((renderArrow cosA sinA brush o dst current shorten).y1 = (pos2user o).2) := by
  refine ⟨rfl, rfl, rfl, rfl, ?_, ?_, ?_, rfl, rfl, rfl, rfl⟩
  · by_cases hlw : brush.lineWidth = 0 <;>
      simp [renderArrow, lineWidth, hlw] <;> ring
  · by_cases hop : brush.opacity = 0 <;>
      simp [renderArrow, opacity, hop] <;> ring
  · simp [renderArrow, arrowMargin]

/-- C9 counterexample: a preview arrow with the shorten flag set uses the
margin 10/64, not the increased 20/64 the claim asserts — the preview
flag does more than scale stroke width and opacity. -/
theorem renderArrow_spec_cex :
    ((renderArrow 1 0 ⟨"green", "#15781B", 1, 10⟩ (0, 0) (4, 0) true true).x2 =
      (pos2user (4, 0)).1 - 10 / 64) ∧
    ((renderArrow 1 0 ⟨"green", "#15781B", 1, 10⟩ (0, 0) (4, 0) true true).x2 ≠
      (pos2user (4, 0)).1 - 20 / 64) := by
  constructor
  · norm_num [renderArrow, arrowMargin, pos2user]
  · norm_num [renderArrow, arrowMargin, pos2user]

end ChessgroundSvg
